import Mathlib

/-!
# DHT11 single-wire driver (`Hardware/DHT_ESP32/src/dht.c`)

A shallow embedding of the bit-banged DHT11 driver.  The C program's only
state is the file-scope variable `dht_gpio`; the GPIO, timing and logging
collaborators are simulated by a `World` that records the configuration of
every pin, a microsecond clock, the number of level samples taken so far and
a chronological trace of every effect.  The electrical line is a parameter
`Line`: the level returned by `gpio_get_level` as a function of the pin, the
simulated clock and the index of the sample.
-/

namespace DHT

/-- Pin numbers (`gpio_num_t`), an `int`-based enumeration in the SDK. -/
abbrev gpio_num_t := Int

/-- Pin direction modes of the GPIO collaborator. -/
inductive gpio_mode_t
  | GPIO_MODE_DISABLE
  | GPIO_MODE_INPUT
  | GPIO_MODE_OUTPUT
  | GPIO_MODE_OUTPUT_OD
  | GPIO_MODE_INPUT_OUTPUT_OD
  | GPIO_MODE_INPUT_OUTPUT
  deriving DecidableEq, Repr

/-- The three status codes the driver returns. -/
inductive esp_err_t
  | ESP_OK
  | ESP_ERR_TIMEOUT
  | ESP_ERR_INVALID_CRC
  deriving DecidableEq, Repr

/-- The caller's result record: `typedef struct { int temperature; int humidity; } dht11_data`. -/
structure dht11_data where
  temperature : Int
  humidity : Int
  deriving DecidableEq, Repr

/-- One observable effect on a collaborator. -/
inductive Event
  | set_direction (pin : gpio_num_t) (mode : gpio_mode_t)
  | set_level (pin : gpio_num_t) (level : Bool)
  | get_level (pin : gpio_num_t) (level : Bool)
  | delay_us (n : Nat)
  | task_delay_ms (n : Nat)
  | log_error (tag : String) (msg : String)
  deriving DecidableEq, Repr

/-- The simulated line: level seen on a pin at a clock value (µs) by the sample with a given index. -/
abbrev Line := gpio_num_t → Nat → Nat → Bool

/-- Program state (`dht_gpio`) together with the simulated collaborators. -/
@[ext]
structure World where
  /-- The file-scope `static gpio_num_t dht_gpio`. -/
  dht_gpio : gpio_num_t
  /-- Direction last configured for each pin, if any. -/
  dir : gpio_num_t → Option gpio_mode_t
  /-- Output level last written to each pin. -/
  out : gpio_num_t → Bool
  /-- Simulated time in microseconds, advanced only by the delay calls. -/
  clock_us : Nat
  /-- Number of `gpio_get_level` calls made so far. -/
  samples : Nat
  /-- Every effect so far, oldest first. -/
  trace : List Event

/-- State at program start: C zero-initialises the static `dht_gpio`. -/
def World.boot : World :=
  { dht_gpio := 0, dir := fun _ => none, out := fun _ => false,
    clock_us := 0, samples := 0, trace := [] }

/-- Collaborator `gpio_set_direction(pin, mode)`. -/
def gpio_set_direction (pin : gpio_num_t) (mode : gpio_mode_t) (w : World) : World :=
  { w with dir := Function.update w.dir pin (some mode),
           trace := w.trace ++ [Event.set_direction pin mode] }

/-- Collaborator `gpio_set_level(pin, level)`. -/
def gpio_set_level (pin : gpio_num_t) (level : Bool) (w : World) : World :=
  { w with out := Function.update w.out pin level,
           trace := w.trace ++ [Event.set_level pin level] }

/-- Collaborator `gpio_get_level(pin)`: one sample of the line. -/
def gpio_get_level (line : Line) (pin : gpio_num_t) (w : World) : Bool × World :=
  (line pin w.clock_us w.samples,
   { w with samples := w.samples + 1,
            trace := w.trace ++ [Event.get_level pin (line pin w.clock_us w.samples)] })

/-- Collaborator `ets_delay_us(n)`: busy-wait for `n` microseconds. -/
def ets_delay_us (n : Nat) (w : World) : World :=
  { w with clock_us := w.clock_us + n, trace := w.trace ++ [Event.delay_us n] }

/-- Modelled from the spec: `pdMS_TO_TICKS` and the tick rate are not part of the
source; `vTaskDelay(pdMS_TO_TICKS(ms))` is the timing collaborator's
`delay_milliseconds(ms)`. -/
def vTaskDelay_ms (ms : Nat) (w : World) : World :=
  { w with clock_us := w.clock_us + 1000 * ms, trace := w.trace ++ [Event.task_delay_ms ms] }

/-- Collaborator `ESP_LOGE(tag, msg)`: purely observational. -/
def ESP_LOGE (tag : String) (msg : String) (w : World) : World :=
  { w with trace := w.trace ++ [Event.log_error tag msg] }

/-- Two's-complement wrap of a C `int` (32 bits). -/
def wrapInt32 (x : Int) : Int := (x + 2147483648) % 4294967296 - 2147483648

/-- `#define DHT11_TIMEOUT_US 100` -/
def DHT11_TIMEOUT_US : Int := 100

/-- The `while` loop of `wait_for_level`, unrolled at most `fuel` times; `time` is the
local counter.  `none` means the loop did not finish within `fuel` iterations. -/
def wait_for_level_loop (line : Line) (level : Bool) (timeout_us : Int) :
    Nat → Int → World → Option (Int × World)
  | 0, _, _ => none
  | fuel + 1, time, w =>
    let r := gpio_get_level line w.dht_gpio w
    if r.1 != level then
      let time := wrapInt32 (time + 1)
      if time > timeout_us then some (-1, r.2)
      else wait_for_level_loop line level timeout_us fuel time (ets_delay_us 1 r.2)
    else some (time, r.2)

/-- `static int wait_for_level(bool level, int timeout_us)`.  The loop body runs at most
`timeout_us + 1` times before `++time` exceeds the timeout, which is the fuel given. -/
def wait_for_level (line : Line) (level : Bool) (timeout_us : Int) (w : World) :
    Option (Int × World) :=
  wait_for_level_loop line level timeout_us (timeout_us.toNat + 1) 0 w

/-- `esp_err_t dht11_init(gpio_num_t gpio)`. -/
def dht11_init (gpio : gpio_num_t) (w : World) : esp_err_t × World :=
  let w := { w with dht_gpio := gpio }
  let w := gpio_set_direction w.dht_gpio gpio_mode_t.GPIO_MODE_INPUT_OUTPUT_OD w
  let w := gpio_set_level w.dht_gpio true w
  (esp_err_t.ESP_OK, w)

/-- The two statements `bits[i / 8] <<= 1; bits[i / 8] |= bit;` on a `uint8_t` array. -/
def shift_in (bits : List Nat) (i : Nat) (bit : Bool) : List Nat :=
  let bits := bits.set (i / 8) ((bits.getD (i / 8) 0 <<< 1) % 256)
  bits.set (i / 8) ((bits.getD (i / 8) 0 ||| bit.toNat) % 256)

/-- The `for (int i = 0; i < 40; i++)` loop of `dht11_read` with `n` iterations left,
starting at index `i`.  The inner `none` is the early `return ESP_ERR_TIMEOUT`. -/
def read_bits_loop (line : Line) :
    Nat → Nat → List Nat → World → Option (Option (List Nat) × World)
  | 0, _, bits, w => some (some bits, w)
  | n + 1, i, bits, w =>
    match wait_for_level line false DHT11_TIMEOUT_US w with
    | none => none
    | some (r, w) =>
      if r < 0 then some (none, w) else
      match wait_for_level line true DHT11_TIMEOUT_US w with
      | none => none
      | some (duration, w) =>
        if duration < 0 then some (none, w) else
        let w := ets_delay_us 40 w
        let s := gpio_get_level line w.dht_gpio w
        read_bits_loop line n (i + 1) (shift_in bits i s.1) s.2

/-- `esp_err_t dht11_read(dht11_data *data)`: the status, the caller's record after the
call and the final world; `none` only if a wait ran out of fuel. -/
def dht11_read (line : Line) (data : dht11_data) (w : World) :
    Option (esp_err_t × dht11_data × World) :=
  let bits : List Nat := [0, 0, 0, 0, 0]
  let w := gpio_set_level w.dht_gpio false w
  let w := vTaskDelay_ms 20 w
  let w := gpio_set_level w.dht_gpio true w
  let w := ets_delay_us 30 w
  match wait_for_level line false 80 w with
  | none => none
  | some (r, w) =>
    if r < 0 then some (esp_err_t.ESP_ERR_TIMEOUT, data, w) else
    match wait_for_level line true 80 w with
    | none => none
    | some (r, w) =>
      if r < 0 then some (esp_err_t.ESP_ERR_TIMEOUT, data, w) else
      match read_bits_loop line 40 0 bits w with
      | none => none
      | some (none, w) => some (esp_err_t.ESP_ERR_TIMEOUT, data, w)
      | some (some bits, w) =>
        let checksum := (bits.getD 0 0 + bits.getD 1 0 + bits.getD 2 0 + bits.getD 3 0) % 256
        if bits.getD 4 0 ≠ checksum then
          some (esp_err_t.ESP_ERR_INVALID_CRC, data, ESP_LOGE "DHT11" "Checksum error" w)
        else
          some (esp_err_t.ESP_OK,
                { data with humidity := (bits.getD 0 0 : Nat), temperature := (bits.getD 2 0 : Nat) },
                w)

/-! ## Simulated lines

A run of `dht11_read` takes its samples one after the other; sample number `i` of the call
is taken at a clock value fixed by the delays issued before it.  A list of pairs
`(clock, level)` describes what the line shows to such a run.
-/

/-- The samples of a wait for `level` that starts at clock `c` and succeeds after `g`
unsuccessful polls, each with the clock value at which it is taken. -/
def timedWait (level : Bool) (g c : Nat) : List (Nat × Bool) :=
  (List.range g).map (fun i => (c + i, !level)) ++ [(c + g, level)]

/-- The `n + 1` samples of a wait for `level` with timeout `n` that starts at clock `c` and
never sees `level`. -/
def timedTimeout (level : Bool) (n c : Nat) : List (Nat × Bool) :=
  (List.range (n + 1)).map (fun i => (c + i, !level))

/-- Microseconds taken by one bit cell: both edge waits and the 40 µs settle delay. -/
def cellTime (cell : Nat × Nat × Bool) : Nat := cell.1 + cell.2.1 + 40

/-- The samples of one bit cell `(hi, lo, bit)` that starts at clock `c`: `hi` highs then a
low, `lo` lows then a high and, 40 µs later, the post-settle sample `bit`. -/
def timedCell (c : Nat) (cell : Nat × Nat × Bool) : List (Nat × Bool) :=
  timedWait false cell.1 c ++
    (timedWait true cell.2.1 (c + cell.1) ++ [(c + cellTime cell, cell.2.2)])

/-- The samples of a sequence of bit cells that starts at clock `c`. -/
def timedCells : Nat → List (Nat × Nat × Bool) → List (Nat × Bool)
  | _, [] => []
  | c, cell :: cs => timedCell c cell ++ timedCells (c + cellTime cell) cs

/-- Microseconds taken by a sequence of bit cells. -/
def cellsTime (cells : List (Nat × Nat × Bool)) : Nat := (cells.map cellTime).sum

/-- The samples of a response handshake that starts at clock `c`: `h1` highs then a low,
`h2` lows then a high. -/
def timedHandshake (c h1 h2 : Nat) : List (Nat × Bool) :=
  timedWait false h1 c ++ timedWait true h2 (c + h1)

/-- The samples of a handshake followed by bit cells, starting at clock `c`. -/
def timedFrame (c h1 h2 : Nat) (cells : List (Nat × Nat × Bool)) : List (Nat × Bool) :=
  timedHandshake c h1 h2 ++ timedCells (c + h1 + h2) cells

/-- On pin `pin` the line shows the levels of `l` to the samples numbered `start`,
`start + 1`, ... when they are taken at the clock values of `l`. -/
def Observes (line : Line) (pin : gpio_num_t) (start : Nat) (l : List (Nat × Bool)) : Prop :=
  ∀ i, i < l.length → line pin (l.getD i (0, false)).1 (start + i) = (l.getD i (0, false)).2

/-- Value of a group of bits read most-significant first. -/
def msbValue (l : List Bool) : Nat := l.foldl (fun v s => 2 * v + s.toNat) 0

/-- Byte `k` of a frame of post-settle samples, most-significant bit first. -/
def frameByte (s : List Bool) (k : Nat) : Nat := msbValue ((s.drop (8 * k)).take 8)

/-- The post-settle samples of a sequence of bit cells. -/
def cellBits (cells : List (Nat × Nat × Bool)) : List Bool := cells.map (fun c => c.2.2)

/-- A line driven by a fixed list of samples whatever the pin and the clock (idle high once
the list is exhausted). -/
def streamLine (l : List Bool) : Line := fun _ _ i => l.getD i true

/-- MSB-first bits of a byte. -/
def byteBits (b : Nat) : List Bool :=
  (List.range 8).map (fun j => b.testBit (7 - j))

/-- Bit cells (one high sample before the low, one low before the high) of a list of bytes. -/
def frameCells (bs : List Nat) : List (Nat × Nat × Bool) :=
  (bs.flatMap byteBits).map (fun s => (1, 1, s))

/-- The levels of a complete well-formed exchange for a list of bytes. -/
def frameStream (bs : List Nat) : List Bool :=
  (timedFrame 0 2 3 (frameCells bs)).map Prod.snd

/-- Levels of a line that goes low at its third sample and then stays low. -/
def lowStuckStream : List Bool := [true, true] ++ List.replicate 82 false

/-- Levels of a line that answers the handshake, sends the bits 1, 0, 1 and then, in the
fourth cell, goes low and never rises again. -/
def bitStuckStream : List Bool :=
  (timedFrame 0 2 3 [(1, 1, true), (1, 1, false), (1, 1, true)]).map Prod.snd ++
    ([true] ++ List.replicate 102 false)

/-- A line with a DHT11 on pin 4 (humidity 45, temperature 22) and another on pin 5
(humidity 50, temperature 25). -/
def twoSensorLine : Line := fun pin _ i =>
  if pin = 4 then (frameStream [0x2D, 0x00, 0x16, 0x00, 0x43]).getD i true
  else if pin = 5 then (frameStream [0x32, 0x00, 0x19, 0x00, 0x4B]).getD i true
  else true

/-! ## Worlds reached by the driver -/

/-- Trace of `n` unsuccessful polls for `level`, each followed by the 1 µs delay. -/
def pollTrace (pin : gpio_num_t) (level : Bool) : Nat → List Event
  | 0 => []
  | n + 1 => Event.get_level pin (!level) :: Event.delay_us 1 :: pollTrace pin level n

/-- World after a wait that polled `n` times without success and then took one last
sample with value `last`. -/
def polled (w : World) (level : Bool) (n : Nat) (last : Bool) : World :=
  { w with clock_us := w.clock_us + n, samples := w.samples + n + 1,
           trace := w.trace ++ (pollTrace w.dht_gpio level n ++ [Event.get_level w.dht_gpio last]) }

/-- World after one complete bit cell `c`: both edge waits, the 40 µs settle delay and
the post-settle sample. -/
def afterCell (w : World) (c : Nat × Nat × Bool) : World :=
  let w3 := ets_delay_us 40 (polled (polled w false c.1 false) true c.2.1 true)
  { w3 with samples := w3.samples + 1,
            trace := w3.trace ++ [Event.get_level w3.dht_gpio c.2.2] }

/-- World after a sequence of complete bit cells. -/
def afterCells (w : World) : List (Nat × Nat × Bool) → World
  | [] => w
  | c :: cs => afterCells (afterCell w c) cs

/-- The array after shifting in a list of sampled bits, the first at index `i`. -/
def pushBits : Nat → List Nat → List Bool → List Nat
  | _, bits, [] => bits
  | i, bits, s :: ss => pushBits (i + 1) (shift_in bits i s) ss

/-- World after the start signal of `dht11_read` (pull low, 20 ms, release, 30 µs). -/
def startSignal (w : World) : World :=
  let w := gpio_set_level w.dht_gpio false w
  let w := vTaskDelay_ms 20 w
  let w := gpio_set_level w.dht_gpio true w
  ets_delay_us 30 w

/-- World after the start signal, a handshake with gaps `h1`, `h2` and the bit cells `cells`. -/
def afterFrame (w : World) (h1 h2 : Nat) (cells : List (Nat × Nat × Bool)) : World :=
  afterCells (polled (polled (startSignal w) false h1 false) true h2 true) cells

/-- Effects of the start signal on pin `pin`. -/
def startTrace (pin : gpio_num_t) : List Event :=
  [Event.set_level pin false, Event.task_delay_ms 20, Event.set_level pin true, Event.delay_us 30]

/-- Microseconds of busy-wait an event stands for. -/
def Event.busy_us : Event → Nat
  | Event.delay_us n => n
  | _ => 0

/-- Milliseconds of task delay an event stands for. -/
def Event.task_ms : Event → Nat
  | Event.task_delay_ms n => n
  | _ => 0

/-- One for a level sample, zero for any other event. -/
def Event.sample : Event → Nat
  | Event.get_level _ _ => 1
  | _ => 0

/-- Total busy-wait delay in a trace, in microseconds. -/
def busyWaitUs (ev : List Event) : Nat := (ev.map Event.busy_us).sum

/-- Total task delay in a trace, in milliseconds. -/
def taskDelayMs (ev : List Event) : Nat := (ev.map Event.task_ms).sum

/-- Number of level samples in a trace. -/
def sampleCount (ev : List Event) : Nat := (ev.map Event.sample).sum

/-- The step from `w` to `w'` only polled the bound pin: the session and the pin
configuration are unchanged and the trace grew by busy-wait delays and samples of the bound
pin, at most `us` microseconds and `smp` samples, which the clock and the sample counter
account for exactly. -/
def Polling (w w' : World) (us smp : Nat) : Prop :=
  w'.dht_gpio = w.dht_gpio ∧ w'.dir = w.dir ∧ w'.out = w.out ∧
  ∃ ev, w'.trace = w.trace ++ ev ∧
    (∀ e ∈ ev, (∃ n, e = Event.delay_us n) ∨ ∃ v, e = Event.get_level w.dht_gpio v) ∧
    w'.clock_us = w.clock_us + busyWaitUs ev ∧ w'.samples = w.samples + sampleCount ev ∧
    busyWaitUs ev ≤ us ∧ sampleCount ev ≤ smp

/-- Two worlds `dht11_read` cannot tell apart: same bound pin, clock and sample index. -/
def SameView (w1 w2 : World) : Prop :=
  w1.dht_gpio = w2.dht_gpio ∧ w1.clock_us = w2.clock_us ∧ w1.samples = w2.samples

/-- Two runs ended alike: both out of fuel, or the same value in indistinguishable worlds. -/
def SameResult {α : Type} (x y : Option (α × World)) : Prop :=
  match x, y with
  | none, none => True
  | some (a, w1), some (b, w2) => a = b ∧ SameView w1 w2
  | _, _ => False

/-- What the caller observes of a call: the status and the record. -/
def outcome (x : Option (esp_err_t × dht11_data × World)) : Option (esp_err_t × dht11_data) :=
  x.map (fun r => (r.1, r.2.1))

/-! ## Further descriptions of runs -/

/-- Byte `k` of a frame as the claim words it: the sum over `j = 0..7` of
`s(8k + j) · 2^(7 − j)`, with `s(i)` the level sampled for bit `i`. -/
def byteSum (s : Nat → Bool) (k : Nat) : Nat :=
  ((List.range 8).map (fun j => (s (8 * k + j)).toNat * 2 ^ (7 - j))).sum

/-- A line whose level is a function of the simulated microsecond clock alone. -/
def clockLine (f : Nat → Bool) : Line := fun _ t _ => f t

/-- For a sequence of bit cells that starts at clock `c`: the clock value at which each
cell's rising edge is observed (the successful poll of the wait for high), paired with
the bit captured for that cell. -/
def risePairs : Nat → List (Nat × Nat × Bool) → List (Nat × Bool)
  | _, [] => []
  | c, cell :: cs => (c + cell.1 + cell.2.1, cell.2.2) :: risePairs (c + cellTime cell) cs

/-- A clock-driven line carrying two data pulses: idle high for 3 µs, low for 50 µs, high
for 27 µs (a `0`), low for 50 µs, high for 70 µs (a `1`), low afterwards. -/
def twoPulses (t : Nat) : Bool :=
  if t < 3 then true else if t < 53 then false else if t < 80 then true
  else if t < 130 then false else if t < 200 then true else false

/-- Whether an event writes to a pin (level or direction). -/
def Event.is_write : Event → Bool
  | Event.set_level _ _ => true
  | Event.set_direction _ _ => true
  | _ => false

/-- The pin a GPIO event targets; `none` for delays and log messages. -/
def Event.gpio_pin : Event → Option gpio_num_t
  | Event.set_direction p _ => some p
  | Event.set_level p _ => some p
  | Event.get_level p _ => some p
  | _ => none

/-- What a whole `dht11_read` does to the world besides advancing the clock and the sample
counter: the bound pin and every direction are unchanged, the output latch of the bound
pin ends high, and the trace grows by the start signal, a first sample of the bound pin,
and then only delays, further samples of the bound pin and log messages. -/
def ReadEffects (w w' : World) : Prop :=
  w'.dht_gpio = w.dht_gpio ∧ w'.dir = w.dir ∧
  w'.out = Function.update w.out w.dht_gpio true ∧
  ∃ v ev, w'.trace = w.trace ++ (startTrace w.dht_gpio ++ Event.get_level w.dht_gpio v :: ev) ∧
    ∀ e ∈ ev, (∃ n, e = Event.delay_us n) ∨ (∃ u, e = Event.get_level w.dht_gpio u) ∨
      ∃ t m, e = Event.log_error t m

/-- The level sampled for bit `i` of a run over the cells `cells` (low past the end). -/
def sampled (cells : List (Nat × Nat × Bool)) (i : Nat) : Bool := (cellBits cells).getD i false

/-! ## The bounded wait -/

theorem wrapInt32_eq (x : Int) (h1 : -2147483648 ≤ x) (h2 : x < 2147483648) :
    wrapInt32 x = x := by
  unfold wrapInt32
  omega

theorem wait_loop_found (line : Line) (level : Bool) (T : Int) (hT : T < 2147483647) :
    ∀ (g fuel : Nat) (time : Int) (w : World), 0 ≤ time → time + g ≤ T → g < fuel →
      (∀ i, i < g → line w.dht_gpio (w.clock_us + i) (w.samples + i) = !level) →
      line w.dht_gpio (w.clock_us + g) (w.samples + g) = level →
      wait_for_level_loop line level T fuel time w = some (time + g, polled w level g level) := by
  intro g
  induction g with
  | zero =>
    intro fuel time w _ _ hf _ hlast
    obtain ⟨f, rfl⟩ : ∃ f, fuel = f + 1 := ⟨fuel - 1, by omega⟩
    simp only [Nat.add_zero] at hlast
    simp only [wait_for_level_loop, gpio_get_level, hlast, bne_self_eq_false, Bool.false_eq_true,
      if_false, Nat.cast_zero, add_zero, polled, pollTrace, List.nil_append]
  | succ g ih =>
    intro fuel time w h0 hle hf hpre hlast
    obtain ⟨f, rfl⟩ : ∃ f, fuel = f + 1 := ⟨fuel - 1, by omega⟩
    have hfirst : line w.dht_gpio w.clock_us w.samples = !level := by
      simpa using hpre 0 (by omega)
    have hw : wrapInt32 (time + 1) = time + 1 := wrapInt32_eq _ (by omega) (by omega)
    have hnot : ¬ (time + 1 > T) := by push_cast at hle; omega
    have hne : ((!level) != level) = true := by cases level <;> rfl
    rw [wait_for_level_loop]
    simp only [gpio_get_level, hfirst, hne, if_true, hw, hnot, if_false]
    rw [ih f (time + 1) _ (by omega) (by push_cast at hle ⊢; omega) (by omega)]
    · congr 1
      refine Prod.ext (by push_cast; ring) ?_
      ext <;> simp [polled, ets_delay_us, pollTrace] <;> omega
    · intro i hi
      have := hpre (i + 1) (by omega)
      simpa [ets_delay_us, Nat.add_assoc, Nat.add_comm 1 i] using this
    · simpa [ets_delay_us, Nat.add_assoc, Nat.add_comm 1 g] using hlast

theorem wait_loop_timeout (line : Line) (level : Bool) (T : Int) (hT : T < 2147483647) :
    ∀ (n fuel : Nat) (time : Int) (w : World), 0 ≤ time → time + n = T → n < fuel →
      (∀ i, i ≤ n → line w.dht_gpio (w.clock_us + i) (w.samples + i) = !level) →
      wait_for_level_loop line level T fuel time w = some (-1, polled w level n (!level)) := by
  intro n
  induction n with
  | zero =>
    intro fuel time w h0 hle hf hpre
    obtain ⟨f, rfl⟩ : ∃ f, fuel = f + 1 := ⟨fuel - 1, by omega⟩
    have hfirst : line w.dht_gpio w.clock_us w.samples = !level := by
      simpa using hpre 0 (by omega)
    have hw : wrapInt32 (time + 1) = time + 1 := wrapInt32_eq _ (by omega) (by omega)
    have hgt : time + 1 > T := by push_cast at hle; omega
    have hne : ((!level) != level) = true := by cases level <;> rfl
    rw [wait_for_level_loop]
    simp only [gpio_get_level, hfirst, hne, if_true, hw, hgt, polled, pollTrace,
      List.nil_append, Nat.add_zero]
  | succ n ih =>
    intro fuel time w h0 hle hf hpre
    obtain ⟨f, rfl⟩ : ∃ f, fuel = f + 1 := ⟨fuel - 1, by omega⟩
    have hfirst : line w.dht_gpio w.clock_us w.samples = !level := by
      simpa using hpre 0 (by omega)
    have hw : wrapInt32 (time + 1) = time + 1 := wrapInt32_eq _ (by omega) (by omega)
    have hnot : ¬ (time + 1 > T) := by push_cast at hle; omega
    have hne : ((!level) != level) = true := by cases level <;> rfl
    rw [wait_for_level_loop]
    simp only [gpio_get_level, hfirst, hne, if_true, hw, hnot, if_false]
    rw [ih f (time + 1) _ (by omega) (by push_cast at hle ⊢; omega) (by omega)]
    · congr 1
      refine Prod.ext rfl ?_
      ext <;> simp [polled, ets_delay_us, pollTrace] <;> omega
    · intro i hi
      have := hpre (i + 1) (by omega)
      simpa [ets_delay_us, Nat.add_assoc, Nat.add_comm 1 i] using this

theorem wait_loop_total (line : Line) (level : Bool) (T : Int) (hT : T < 2147483647) :
    ∀ (f : Nat) (time : Int) (w : World), 0 ≤ time → time + f = T →
      ∃ n last r, n ≤ f ∧
        wait_for_level_loop line level T (f + 1) time w = some (r, polled w level n last) ∧
        ((r = -1 ∧ last = (!level) ∧ n = f) ∨ (r = time + n ∧ last = level)) := by
  intro f
  induction f with
  | zero =>
    intro time w h0 hle
    by_cases hfirst : line w.dht_gpio w.clock_us w.samples = level
    · refine ⟨0, level, time, le_refl _, ?_, Or.inr ⟨by simp, rfl⟩⟩
      simpa using wait_loop_found line level T hT 0 1 time w h0 (by simpa using hle.le)
        (by omega) (by intro i hi; omega) (by simpa using hfirst)
    · have hfirst2 : line w.dht_gpio w.clock_us w.samples = !level := by
        cases level <;> simpa using hfirst
      refine ⟨0, !level, -1, le_refl _, ?_, Or.inl ⟨rfl, rfl, rfl⟩⟩
      exact wait_loop_timeout line level T hT 0 1 time w h0 (by simpa using hle) (by omega)
        (by intro i hi; obtain rfl : i = 0 := by omega
            simpa using hfirst2)
  | succ f ih =>
    intro time w h0 hle
    by_cases hfirst : line w.dht_gpio w.clock_us w.samples = level
    · refine ⟨0, level, time, Nat.zero_le _, ?_, Or.inr ⟨by simp, rfl⟩⟩
      simpa using wait_loop_found line level T hT 0 (f + 1 + 1) time w h0
        (by push_cast at hle ⊢; omega) (by omega) (by intro i hi; omega) (by simpa using hfirst)
    · have hfirst2 : line w.dht_gpio w.clock_us w.samples = !level := by
        cases level <;> simpa using hfirst
      have hw : wrapInt32 (time + 1) = time + 1 := wrapInt32_eq _ (by omega) (by omega)
      have hnot : ¬ (time + 1 > T) := by push_cast at hle; omega
      have hne : ((!level) != level) = true := by cases level <;> rfl
      obtain ⟨n, last, r, hn, hrun, hr⟩ :=
        ih (time + 1) (ets_delay_us 1 (gpio_get_level line w.dht_gpio w).2) (by omega)
          (by push_cast at hle ⊢; omega)
      refine ⟨n + 1, last, r, by omega, ?_, ?_⟩
      · rw [wait_for_level_loop]
        simp only [gpio_get_level, hfirst2, hne, if_true, hw, hnot, if_false]
        simp only [gpio_get_level, hfirst2] at hrun
        rw [hrun]
        congr 1
        refine Prod.ext rfl ?_
        ext <;> simp [polled, ets_delay_us, pollTrace, hfirst2] <;> omega
      · rcases hr with ⟨h1, h2, h3⟩ | ⟨h1, h2⟩
        · exact Or.inl ⟨h1, h2, by omega⟩
        · exact Or.inr ⟨by rw [h1]; push_cast; ring, h2⟩

theorem wait_for_level_found (line : Line) (level : Bool) (T : Int) (hT : T < 2147483647)
    (g : Nat) (w : World) (hg : (g : Int) ≤ T)
    (hpre : ∀ i, i < g → line w.dht_gpio (w.clock_us + i) (w.samples + i) = !level)
    (hlast : line w.dht_gpio (w.clock_us + g) (w.samples + g) = level) :
    wait_for_level line level T w = some ((g : Int), polled w level g level) := by
  have := wait_loop_found line level T hT g (T.toNat + 1) 0 w (le_refl _) (by omega) (by omega)
    hpre hlast
  simpa [wait_for_level] using this

theorem wait_for_level_timeout (line : Line) (level : Bool) (T : Int) (h0 : 0 ≤ T)
    (hT : T < 2147483647) (w : World)
    (hpre : ∀ i, i ≤ T.toNat → line w.dht_gpio (w.clock_us + i) (w.samples + i) = !level) :
    wait_for_level line level T w = some (-1, polled w level T.toNat (!level)) := by
  have := wait_loop_timeout line level T hT T.toNat (T.toNat + 1) 0 w (le_refl _) (by omega)
    (by omega) hpre
  simpa [wait_for_level] using this

theorem wait_for_level_total (line : Line) (level : Bool) (T : Int) (h0 : 0 ≤ T)
    (hT : T < 2147483647) (w : World) :
    ∃ n last r, n ≤ T.toNat ∧
      wait_for_level line level T w = some (r, polled w level n last) ∧
      ((r = -1 ∧ last = (!level) ∧ n = T.toNat) ∨ (r = (n : Int) ∧ last = level)) := by
  obtain ⟨n, last, r, hn, hrun, hr⟩ :=
    wait_loop_total line level T hT T.toNat 0 w (le_refl _) (by omega)
  refine ⟨n, last, r, hn, hrun, ?_⟩
  simpa using hr

theorem observes_left {line : Line} {pin : gpio_num_t} {start : Nat} {l1 l2 : List (Nat × Bool)}
    (h : Observes line pin start (l1 ++ l2)) : Observes line pin start l1 := by
  intro i hi
  have := h i (by simp; omega)
  rwa [List.getD_append _ _ _ _ hi] at this

theorem observes_right {line : Line} {pin : gpio_num_t} {start : Nat} {l1 l2 : List (Nat × Bool)}
    (h : Observes line pin start (l1 ++ l2)) : Observes line pin (start + l1.length) l2 := by
  intro i hi
  have := h (l1.length + i) (by simp; omega)
  rw [List.getD_append_right _ _ _ _ (by omega), Nat.add_sub_cancel_left, ← Nat.add_assoc] at this
  exact this

theorem timedWait_length (level : Bool) (g c : Nat) : (timedWait level g c).length = g + 1 := by
  simp [timedWait]

theorem timedTimeout_length (level : Bool) (n c : Nat) :
    (timedTimeout level n c).length = n + 1 := by
  simp [timedTimeout]

theorem timedCell_length (c : Nat) (cell : Nat × Nat × Bool) :
    (timedCell c cell).length = cell.1 + cell.2.1 + 3 := by
  simp [timedCell, timedWait]; omega

theorem timedWait_getD_lt (level : Bool) (g c i : Nat) (hi : i < g) :
    (timedWait level g c).getD i (0, false) = (c + i, !level) := by
  rw [timedWait, List.getD_append _ _ _ _ (by simpa using hi)]
  simp [List.getElem?_range hi]

theorem timedWait_getD_last (level : Bool) (g c : Nat) :
    (timedWait level g c).getD g (0, false) = (c + g, level) := by
  rw [timedWait, List.getD_append_right _ _ _ _ (by simp)]
  simp

theorem timedTimeout_getD (level : Bool) (n c i : Nat) (hi : i ≤ n) :
    (timedTimeout level n c).getD i (0, false) = (c + i, !level) := by
  have hi' : i < n + 1 := by omega
  simp [timedTimeout, List.getElem?_range hi']

theorem observes_streamLine (l : List (Nat × Bool)) (s : List Bool) (pin : gpio_num_t)
    (h : l.map Prod.snd = s) : Observes (streamLine s) pin 0 l := by
  subst h
  intro i hi
  simp [streamLine, List.getElem?_eq_getElem hi]

theorem polled_dht_gpio (w : World) (level : Bool) (n : Nat) (last : Bool) :
    (polled w level n last).dht_gpio = w.dht_gpio := rfl

theorem polled_samples (w : World) (level : Bool) (n : Nat) (last : Bool) :
    (polled w level n last).samples = w.samples + n + 1 := rfl

theorem polled_clock_us (w : World) (level : Bool) (n : Nat) (last : Bool) :
    (polled w level n last).clock_us = w.clock_us + n := rfl

/-- A wait returns its gap when the line shows `g` samples at the other level and then
`level`. -/
theorem wait_for_level_observes (line : Line) (level : Bool) (T : Int) (hT : T < 2147483647)
    (g : Nat) (w : World) (hg : (g : Int) ≤ T)
    (h : Observes line w.dht_gpio w.samples (timedWait level g w.clock_us)) :
    wait_for_level line level T w = some ((g : Int), polled w level g level) := by
  apply wait_for_level_found line level T hT g w hg
  · intro i hi
    have := h i (by rw [timedWait_length]; omega)
    rwa [timedWait_getD_lt level g _ i hi] at this
  · have := h g (by rw [timedWait_length]; omega)
    rwa [timedWait_getD_last] at this

/-- A wait times out when the line shows `T + 1` samples at the other level. -/
theorem wait_for_level_stuck (line : Line) (level : Bool) (T : Nat) (hT : T < 2147483647)
    (w : World) (h : Observes line w.dht_gpio w.samples (timedTimeout level T w.clock_us)) :
    wait_for_level line level (T : Int) w = some (-1, polled w level T (!level)) := by
  have := wait_for_level_timeout line level (T : Int) (by omega) (by omega) w
    (by
      intro i hi
      have hi' : i ≤ T := by simpa using hi
      have := h i (by rw [timedTimeout_length]; omega)
      rwa [timedTimeout_getD level T _ i hi'] at this)
  simpa using this

theorem wait_80_stuck (line : Line) (level : Bool) (w : World)
    (h : Observes line w.dht_gpio w.samples (timedTimeout level 80 w.clock_us)) :
    wait_for_level line level 80 w = some (-1, polled w level 80 (!level)) := by
  simpa using wait_for_level_stuck line level 80 (by norm_num) w h

theorem wait_100_stuck (line : Line) (level : Bool) (w : World)
    (h : Observes line w.dht_gpio w.samples (timedTimeout level 100 w.clock_us)) :
    wait_for_level line level 100 w = some (-1, polled w level 100 (!level)) := by
  simpa using wait_for_level_stuck line level 100 (by norm_num) w h

theorem afterCell_dht_gpio (w : World) (c : Nat × Nat × Bool) :
    (afterCell w c).dht_gpio = w.dht_gpio := rfl

theorem afterCell_samples (w : World) (c : Nat × Nat × Bool) :
    (afterCell w c).samples = w.samples + (timedCell w.clock_us c).length := by
  simp [afterCell, polled, ets_delay_us, timedCell_length]; omega

theorem afterCell_clock_us (w : World) (c : Nat × Nat × Bool) :
    (afterCell w c).clock_us = w.clock_us + cellTime c := by
  simp [afterCell, polled, ets_delay_us, cellTime]; omega

theorem afterCells_dht_gpio (w : World) (cs : List (Nat × Nat × Bool)) :
    (afterCells w cs).dht_gpio = w.dht_gpio := by
  induction cs generalizing w with
  | nil => rfl
  | cons c cs ih => rw [afterCells, ih, afterCell_dht_gpio]

theorem afterCells_samples (w : World) (cs : List (Nat × Nat × Bool)) :
    (afterCells w cs).samples = w.samples + (timedCells w.clock_us cs).length := by
  induction cs generalizing w with
  | nil => rfl
  | cons c cs ih =>
    rw [afterCells, ih, afterCell_samples, afterCell_clock_us, timedCells, List.length_append]
    omega

theorem afterCells_clock_us (w : World) (cs : List (Nat × Nat × Bool)) :
    (afterCells w cs).clock_us = w.clock_us + cellsTime cs := by
  induction cs generalizing w with
  | nil => rfl
  | cons c cs ih =>
    rw [afterCells, ih, afterCell_clock_us]
    simp [cellsTime]; omega

/-- One iteration of the bit loop over a well-formed cell. -/
theorem read_bits_loop_cell (line : Line) (n i : Nat) (bits : List Nat) (w : World)
    (c : Nat × Nat × Bool) (h1 : c.1 ≤ 100) (h2 : c.2.1 ≤ 100)
    (h : Observes line w.dht_gpio w.samples (timedCell w.clock_us c)) :
    read_bits_loop line (n + 1) i bits w =
      read_bits_loop line n (i + 1) (shift_in bits i c.2.2) (afterCell w c) := by
  have ha := wait_for_level_observes line false 100 (by norm_num) c.1 w (by exact_mod_cast h1)
    (observes_left h)
  have hb := wait_for_level_observes line true 100 (by norm_num) c.2.1
    (polled w false c.1 false) (by exact_mod_cast h2)
    (by
      have := observes_left (observes_right h)
      rwa [timedWait_length] at this)
  have hc : line w.dht_gpio (w.clock_us + c.1 + c.2.1 + 40) (w.samples + c.1 + 1 + c.2.1 + 1)
      = c.2.2 := by
    have := observes_right (observes_right h) 0 (by simp)
    simpa [timedWait_length, cellTime, Nat.add_assoc] using this
  rw [read_bits_loop]
  simp only [DHT11_TIMEOUT_US, ha, hb]
  have hn1 : ¬ ((c.1 : Int) < 0) := by omega
  have hn2 : ¬ ((c.2.1 : Int) < 0) := by omega
  simp only [hn1, hn2, if_false]
  congr 1
  · simp [gpio_get_level, ets_delay_us, polled, hc]
  · simp [gpio_get_level, ets_delay_us, polled, hc, afterCell]

/-- The bit loop over a run of well-formed cells continues after them. -/
theorem read_bits_loop_cells (line : Line) :
    ∀ (cs : List (Nat × Nat × Bool)) (m i : Nat) (bits : List Nat) (w : World),
      (∀ c ∈ cs, c.1 ≤ 100 ∧ c.2.1 ≤ 100) →
      Observes line w.dht_gpio w.samples (timedCells w.clock_us cs) →
      read_bits_loop line (cs.length + m) i bits w =
        read_bits_loop line m (i + cs.length) (pushBits i bits (cellBits cs))
          (afterCells w cs) := by
  intro cs
  induction cs with
  | nil => intro m i bits w _ _; simp [pushBits, afterCells, cellBits]
  | cons c cs ih =>
    intro m i bits w hb h
    have hc := hb c (List.mem_cons_self _ _)
    rw [timedCells] at h
    have e : (c :: cs).length + m = (cs.length + m) + 1 := by simp; omega
    rw [e, read_bits_loop_cell line _ i bits w c hc.1 hc.2 (observes_left h),
      ih m (i + 1) _ (afterCell w c) (fun c' hc' => hb c' (List.mem_cons_of_mem _ hc'))
        (by
          have := observes_right h
          rwa [← afterCell_samples, ← afterCell_clock_us] at this)]
    simp [pushBits, afterCells, cellBits, Nat.add_assoc, Nat.add_comm 1]

theorem startSignal_trace (w : World) :
    (startSignal w).trace = w.trace ++ startTrace w.dht_gpio := by
  simp [startSignal, startTrace, gpio_set_level, vTaskDelay_ms, ets_delay_us]

theorem startSignal_dht_gpio (w : World) : (startSignal w).dht_gpio = w.dht_gpio := rfl

theorem startSignal_samples (w : World) : (startSignal w).samples = w.samples := rfl

theorem startSignal_clock_us (w : World) : (startSignal w).clock_us = w.clock_us + 20030 := by
  simp [startSignal, gpio_set_level, vTaskDelay_ms, ets_delay_us]

theorem read_bits_loop_zero (line : Line) (i : Nat) (bits : List Nat) (w : World) :
    read_bits_loop line 0 i bits w = some (some bits, w) := rfl

theorem dht11_read_unfold (line : Line) (data : dht11_data) (w : World) :
    dht11_read line data w =
      match wait_for_level line false 80 (startSignal w) with
      | none => none
      | some (r, w) =>
        if r < 0 then some (esp_err_t.ESP_ERR_TIMEOUT, data, w) else
        match wait_for_level line true 80 w with
        | none => none
        | some (r, w) =>
          if r < 0 then some (esp_err_t.ESP_ERR_TIMEOUT, data, w) else
          match read_bits_loop line 40 0 [0, 0, 0, 0, 0] w with
          | none => none
          | some (none, w) => some (esp_err_t.ESP_ERR_TIMEOUT, data, w)
          | some (some bits, w) =>
            if bits.getD 4 0 ≠ (bits.getD 0 0 + bits.getD 1 0 + bits.getD 2 0 + bits.getD 3 0) % 256
            then some (esp_err_t.ESP_ERR_INVALID_CRC, data, ESP_LOGE "DHT11" "Checksum error" w)
            else some (esp_err_t.ESP_OK,
              { data with humidity := (bits.getD 0 0 : Nat), temperature := (bits.getD 2 0 : Nat) },
              w) := rfl

theorem pushBits_append (xs ys : List Bool) :
    ∀ (i : Nat) (bits : List Nat),
      pushBits i bits (xs ++ ys) = pushBits (i + xs.length) (pushBits i bits xs) ys := by
  induction xs with
  | nil => intro i bits; simp [pushBits]
  | cons x xs ih =>
    intro i bits
    have e : i + 1 + xs.length = i + (xs.length + 1) := by omega
    rw [List.cons_append, pushBits, ih, pushBits, List.length_cons, e]

theorem shift_value : ∀ v, v < 128 → ∀ s : Bool,
    ((v <<< 1) % 256 ||| s.toNat) % 256 = 2 * v + s.toNat := by
  decide

theorem getD_set_self (bits : List Nat) (k x : Nat) (hk : k < bits.length) :
    (bits.set k x).getD k 0 = x := by
  simp [List.getElem?_set_self hk]

theorem shift_in_slot (bits : List Nat) (k j : Nat) (s : Bool) (hk : k < bits.length)
    (hj : j < 8) (hv : bits.getD k 0 < 128) :
    shift_in bits (8 * k + j) s = bits.set k (2 * bits.getD k 0 + s.toNat) := by
  have hdiv : (8 * k + j) / 8 = k := by omega
  have hv2 : (bits.getD k 0 <<< 1) % 256 < 256 := Nat.mod_lt _ (by norm_num)
  unfold shift_in
  simp only [hdiv]
  have hget : (bits.set k ((bits.getD k 0 <<< 1) % 256)).getD k 0 = (bits.getD k 0 <<< 1) % 256 := by
    simp [List.getElem?_set_self hk]
  rw [hget, List.set_set, shift_value _ hv]

theorem pushBits_slot (k : Nat) :
    ∀ (l : List Bool) (bits : List Nat) (j : Nat), k < bits.length → j + l.length ≤ 8 →
      bits.getD k 0 < 2 ^ j →
      pushBits (8 * k + j) bits l =
        bits.set k (l.foldl (fun v s => 2 * v + s.toNat) (bits.getD k 0)) := by
  intro l
  induction l with
  | nil =>
    intro bits j hk _ _
    simp only [pushBits, List.foldl_nil]
    apply List.ext_getElem?
    intro n
    by_cases hn : k = n
    · subst hn; simp [List.getElem?_set_self hk, List.getElem?_eq_getElem hk]
    · simp [List.getElem?_set_ne hn]
  | cons s l ih =>
    intro bits j hk hj hv
    simp only [List.length_cons] at hj
    have hpow : 2 ^ j ≤ 2 ^ 7 := Nat.pow_le_pow_right (by norm_num) (by omega)
    have hs : s.toNat ≤ 1 := Bool.toNat_le s
    rw [pushBits, shift_in_slot bits k j s hk (by omega) (by omega), Nat.add_assoc,
      ih _ (j + 1) (by simpa using hk) (by omega)
        (by rw [getD_set_self _ _ _ hk, pow_succ]; omega)]
    rw [getD_set_self _ _ _ hk, List.set_set, List.foldl_cons]

theorem pushBits_byte (k : Nat) (l : List Bool) (bits : List Nat) (hk : k < bits.length)
    (hl : l.length = 8) (hv : bits.getD k 0 = 0) :
    pushBits (8 * k) bits l = bits.set k (msbValue l) := by
  have := pushBits_slot k l bits 0 hk (by omega) (by rw [hv]; norm_num)
  rw [hv] at this
  simpa [msbValue] using this

theorem pushBits_groups (l0 l1 l2 l3 l4 : List Bool) (h0 : l0.length = 8) (h1 : l1.length = 8)
    (h2 : l2.length = 8) (h3 : l3.length = 8) (h4 : l4.length = 8) :
    pushBits 0 [0, 0, 0, 0, 0] (l0 ++ (l1 ++ (l2 ++ (l3 ++ l4)))) =
      [msbValue l0, msbValue l1, msbValue l2, msbValue l3, msbValue l4] := by
  have e0 := pushBits_byte 0 l0 [0, 0, 0, 0, 0] (by simp) h0 rfl
  have e1 := pushBits_byte 1 l1 [msbValue l0, 0, 0, 0, 0] (by simp) h1 rfl
  have e2 := pushBits_byte 2 l2 [msbValue l0, msbValue l1, 0, 0, 0] (by simp) h2 rfl
  have e3 := pushBits_byte 3 l3 [msbValue l0, msbValue l1, msbValue l2, 0, 0] (by simp) h3 rfl
  have e4 := pushBits_byte 4 l4 [msbValue l0, msbValue l1, msbValue l2, msbValue l3, 0]
    (by simp) h4 rfl
  simp only [Nat.mul_zero, Nat.mul_one, List.set_cons_zero, List.set_cons_succ] at e0 e1 e2 e3 e4
  rw [pushBits_append, e0, h0, pushBits_append, e1, h1, pushBits_append, e2, h2,
    pushBits_append, e3, h3, e4]

theorem frame_split (s : List Bool) (hs : s.length = 40) :
    s = (s.drop (8 * 0)).take 8 ++ ((s.drop (8 * 1)).take 8 ++ ((s.drop (8 * 2)).take 8 ++
      ((s.drop (8 * 3)).take 8 ++ (s.drop (8 * 4)).take 8))) := by
  have e : (s.drop 32).take 8 = s.drop 32 := List.take_of_length_le (by simp; omega)
  have d1 : s.drop 16 = (s.drop 8).drop 8 := by simp
  have d2 : s.drop 24 = (s.drop 16).drop 8 := by simp
  have d3 : s.drop 32 = (s.drop 24).drop 8 := by simp
  simp only [Nat.mul_zero, Nat.mul_one, List.drop_zero, Nat.reduceMul]
  rw [e]
  conv_rhs => rw [d3, List.take_append_drop, d2, List.take_append_drop, d1,
    List.take_append_drop, List.take_append_drop]

theorem pushBits_frame (s : List Bool) (hs : s.length = 40) :
    pushBits 0 [0, 0, 0, 0, 0] s =
      [frameByte s 0, frameByte s 1, frameByte s 2, frameByte s 3, frameByte s 4] := by
  have h := pushBits_groups ((s.drop (8 * 0)).take 8) ((s.drop (8 * 1)).take 8)
    ((s.drop (8 * 2)).take 8) ((s.drop (8 * 3)).take 8) ((s.drop (8 * 4)).take 8)
    (by simp; omega) (by simp; omega) (by simp; omega) (by simp; omega) (by simp; omega)
  rw [← frame_split s hs] at h
  exact h

/-- On a line whose handshake and 40 bit cells are all within bound, the call reaches the
checksum test with the five bytes of the post-settle samples. -/
theorem dht11_read_frame (line : Line) (data : dht11_data) (w : World) (h1 h2 : Nat)
    (cells : List (Nat × Nat × Bool)) (hh1 : h1 ≤ 80) (hh2 : h2 ≤ 80)
    (hlen : cells.length = 40) (hgaps : ∀ c ∈ cells, c.1 ≤ 100 ∧ c.2.1 ≤ 100)
    (hline : Observes line w.dht_gpio w.samples (timedFrame (w.clock_us + 20030) h1 h2 cells)) :
    dht11_read line data w =
      if frameByte (cellBits cells) 4 ≠
          (frameByte (cellBits cells) 0 + frameByte (cellBits cells) 1 +
            frameByte (cellBits cells) 2 + frameByte (cellBits cells) 3) % 256
      then some (esp_err_t.ESP_ERR_INVALID_CRC, data,
        ESP_LOGE "DHT11" "Checksum error" (afterFrame w h1 h2 cells))
      else some (esp_err_t.ESP_OK,
        { temperature := (frameByte (cellBits cells) 2 : Nat),
          humidity := (frameByte (cellBits cells) 0 : Nat) },
        afterFrame w h1 h2 cells) := by
  rw [← startSignal_clock_us] at hline
  have ha : wait_for_level line false 80 (startSignal w) =
      some ((h1 : Int), polled (startSignal w) false h1 false) :=
    wait_for_level_observes line false 80 (by norm_num) h1 _ (by exact_mod_cast hh1)
      (observes_left (observes_left hline))
  have hb : wait_for_level line true 80 (polled (startSignal w) false h1 false) =
      some ((h2 : Int), polled (polled (startSignal w) false h1 false) true h2 true) :=
    wait_for_level_observes line true 80 (by norm_num) h2 _ (by exact_mod_cast hh2)
      (by
        have := observes_right (observes_left hline)
        rwa [timedWait_length] at this)
  have hc : read_bits_loop line 40 0 [0, 0, 0, 0, 0]
      (polled (polled (startSignal w) false h1 false) true h2 true) =
      some (some (pushBits 0 [0, 0, 0, 0, 0] (cellBits cells)), afterFrame w h1 h2 cells) := by
    have := read_bits_loop_cells line cells 0 0 [0, 0, 0, 0, 0]
      (polled (polled (startSignal w) false h1 false) true h2 true) hgaps
      (by
        have := observes_right hline
        simp only [timedHandshake, List.length_append, timedWait_length] at this
        simpa [polled, startSignal_samples, startSignal_dht_gpio, Nat.add_assoc] using this)
    rw [hlen, Nat.add_zero] at this
    rw [this, read_bits_loop_zero, afterFrame]
  have hn1 : ¬ ((h1 : Int) < 0) := by omega
  have hn2 : ¬ ((h2 : Int) < 0) := by omega
  rw [dht11_read_unfold]
  simp only [ha, hn1, if_false, hb, hn2, hc,
    pushBits_frame (cellBits cells) (by simpa [cellBits] using hlen)]
  simp only [List.getD_cons_zero, List.getD_cons_succ]

theorem pollTrace_mem (pin : gpio_num_t) (level : Bool) (n : Nat) :
    ∀ e ∈ pollTrace pin level n, e = Event.delay_us 1 ∨ ∃ v, e = Event.get_level pin v := by
  induction n with
  | zero => intro e he; simp [pollTrace] at he
  | succ n ih =>
    intro e he
    simp only [pollTrace, List.mem_cons] at he
    rcases he with rfl | rfl | he
    · exact Or.inr ⟨_, rfl⟩
    · exact Or.inl rfl
    · exact ih e he

theorem read_bits_loop_low_timeout (line : Line) (m i : Nat) (bits : List Nat) (w : World)
    (h : Observes line w.dht_gpio w.samples (timedTimeout false 100 w.clock_us)) :
    read_bits_loop line (m + 1) i bits w = some (none, polled w false 100 true) := by
  have ha := wait_100_stuck line false w h
  rw [read_bits_loop]
  simp [DHT11_TIMEOUT_US, ha]

theorem read_bits_loop_high_timeout (line : Line) (m i : Nat) (bits : List Nat) (w : World)
    (g : Nat) (hg : g ≤ 100)
    (h : Observes line w.dht_gpio w.samples
      (timedWait false g w.clock_us ++ timedTimeout true 100 (w.clock_us + g))) :
    read_bits_loop line (m + 1) i bits w =
      some (none, polled (polled w false g false) true 100 false) := by
  have ha := wait_for_level_observes line false 100 (by norm_num) g w (by exact_mod_cast hg)
    (observes_left h)
  have hb := wait_100_stuck line true (polled w false g false)
    (by
      have := observes_right h
      rwa [timedWait_length] at this)
  have hn : ¬ ((g : Int) < 0) := by omega
  rw [read_bits_loop]
  simp only [DHT11_TIMEOUT_US, ha, hn, if_false, hb]
  simp

theorem busyWaitUs_append (a b : List Event) :
    busyWaitUs (a ++ b) = busyWaitUs a + busyWaitUs b := by
  simp [busyWaitUs]

theorem taskDelayMs_append (a b : List Event) :
    taskDelayMs (a ++ b) = taskDelayMs a + taskDelayMs b := by
  simp [taskDelayMs]

theorem sampleCount_append (a b : List Event) :
    sampleCount (a ++ b) = sampleCount a + sampleCount b := by
  simp [sampleCount]

theorem busyWaitUs_pollTrace (pin : gpio_num_t) (level : Bool) (n : Nat) :
    busyWaitUs (pollTrace pin level n) = n := by
  induction n with
  | zero => rfl
  | succ n ih =>
    simp only [busyWaitUs, pollTrace, List.map_cons, List.sum_cons, Event.busy_us] at ih ⊢
    omega

theorem sampleCount_pollTrace (pin : gpio_num_t) (level : Bool) (n : Nat) :
    sampleCount (pollTrace pin level n) = n := by
  induction n with
  | zero => rfl
  | succ n ih =>
    simp only [sampleCount, pollTrace, List.map_cons, List.sum_cons, Event.sample] at ih ⊢
    omega

theorem taskDelayMs_polling (pin : gpio_num_t) (ev : List Event)
    (h : ∀ e ∈ ev, (∃ n, e = Event.delay_us n) ∨ ∃ v, e = Event.get_level pin v) :
    taskDelayMs ev = 0 := by
  induction ev with
  | nil => rfl
  | cons e es ih =>
    have he := h e (List.mem_cons_self _ _)
    have hes := ih (fun e' he' => h e' (List.mem_cons_of_mem _ he'))
    simp only [taskDelayMs, List.map_cons, List.sum_cons] at hes ⊢
    rcases he with ⟨n, rfl⟩ | ⟨v, rfl⟩ <;> simp [Event.task_ms, hes]

theorem polling_refl (w : World) : Polling w w 0 0 :=
  ⟨rfl, rfl, rfl, [], by simp, by simp, rfl, rfl, le_refl _, le_refl _⟩

theorem polling_mono {w w' : World} {us smp us' smp' : Nat} (h : Polling w w' us smp)
    (h1 : us ≤ us') (h2 : smp ≤ smp') : Polling w w' us' smp' := by
  obtain ⟨a, b, c, ev, d, e, f, g, i, j⟩ := h
  exact ⟨a, b, c, ev, d, e, f, g, le_trans i h1, le_trans j h2⟩

theorem polling_trans {w w1 w2 : World} {us smp us' smp' : Nat} (h : Polling w w1 us smp)
    (h' : Polling w1 w2 us' smp') : Polling w w2 (us + us') (smp + smp') := by
  obtain ⟨a, b, c, ev, d, e, f, g, i, j⟩ := h
  obtain ⟨a', b', c', ev', d', e', f', g', i', j'⟩ := h'
  refine ⟨a'.trans a, b'.trans b, c'.trans c, ev ++ ev', ?_, ?_, ?_, ?_, ?_, ?_⟩
  · rw [d', d, List.append_assoc]
  · intro x hx
    rcases List.mem_append.mp hx with hx | hx
    · exact e x hx
    · rw [← a]; exact e' x hx
  · rw [f', f, busyWaitUs_append]; omega
  · rw [g', g, sampleCount_append]; omega
  · rw [busyWaitUs_append]; omega
  · rw [sampleCount_append]; omega

theorem polling_polled (w : World) (level : Bool) (n T : Nat) (last : Bool) (h : n ≤ T) :
    Polling w (polled w level n last) T (T + 1) := by
  refine ⟨rfl, rfl, rfl, pollTrace w.dht_gpio level n ++ [Event.get_level w.dht_gpio last],
    rfl, ?_, ?_, ?_, ?_, ?_⟩
  · intro e he
    rcases List.mem_append.mp he with he | he
    · rcases pollTrace_mem _ _ _ e he with rfl | hv
      · exact Or.inl ⟨1, rfl⟩
      · exact Or.inr hv
    · exact Or.inr ⟨last, by simpa using he⟩
  · rw [busyWaitUs_append, busyWaitUs_pollTrace]; simp [polled, busyWaitUs, Event.busy_us]
  · rw [sampleCount_append, sampleCount_pollTrace]; simp [polled, sampleCount, Event.sample]
    omega
  · rw [busyWaitUs_append, busyWaitUs_pollTrace]; simp [busyWaitUs, Event.busy_us]; exact h
  · rw [sampleCount_append, sampleCount_pollTrace]; simp [sampleCount, Event.sample]; exact h

theorem polling_settle (line : Line) (w : World) :
    Polling w (gpio_get_level line (ets_delay_us 40 w).dht_gpio (ets_delay_us 40 w)).2 40 1 := by
  refine ⟨rfl, rfl, rfl,
    [Event.delay_us 40, Event.get_level w.dht_gpio (line w.dht_gpio (w.clock_us + 40) w.samples)],
    ?_, ?_, ?_, ?_, ?_, ?_⟩
  · simp [gpio_get_level, ets_delay_us]
  · intro e he
    simp only [List.mem_cons, List.mem_singleton, List.not_mem_nil, or_false] at he
    rcases he with rfl | rfl
    · exact Or.inl ⟨40, rfl⟩
    · exact Or.inr ⟨_, rfl⟩
  · simp [gpio_get_level, ets_delay_us, busyWaitUs, Event.busy_us]
  · simp [gpio_get_level, ets_delay_us, sampleCount, Event.sample]
  · simp [busyWaitUs, Event.busy_us]
  · simp [sampleCount, Event.sample]

/-- Every wait of `dht11_read` returns, having only polled the bound pin. -/
theorem wait_for_level_polling (line : Line) (level : Bool) (T : Nat) (hT : T < 2147483647)
    (w : World) :
    ∃ r w', wait_for_level line level (T : Int) w = some (r, w') ∧ Polling w w' T (T + 1) := by
  obtain ⟨n, last, r, hn, hrun, _⟩ :=
    wait_for_level_total line level (T : Int) (by omega) (by omega) w
  exact ⟨r, _, hrun, polling_polled w level n T last (by simpa using hn)⟩

/-- The bit loop returns for every line, having only polled the bound pin. -/
theorem read_bits_loop_total (line : Line) :
    ∀ (n i : Nat) (bits : List Nat) (w : World),
      ∃ r w', read_bits_loop line n i bits w = some (r, w') ∧
        Polling w w' (240 * n) (203 * n) := by
  intro n
  induction n with
  | zero => intro i bits w; exact ⟨some bits, w, rfl, polling_refl w⟩
  | succ n ih =>
    intro i bits w
    obtain ⟨r1, w1, ha, p1⟩ := wait_for_level_polling line false 100 (by norm_num) w
    obtain ⟨r2, w2, hb, p2⟩ := wait_for_level_polling line true 100 (by norm_num) w1
    obtain ⟨r3, w3, hc, p3⟩ := ih (i + 1)
      (shift_in bits i (gpio_get_level line (ets_delay_us 40 w2).dht_gpio (ets_delay_us 40 w2)).1)
      (gpio_get_level line (ets_delay_us 40 w2).dht_gpio (ets_delay_us 40 w2)).2
    simp only [Nat.cast_ofNat] at ha hb
    rw [read_bits_loop]
    simp only [DHT11_TIMEOUT_US, ha]
    by_cases h1 : r1 < 0
    · simp only [h1, if_true]
      exact ⟨none, w1, rfl, polling_mono p1 (by omega) (by omega)⟩
    · simp only [h1, if_false, hb]
      by_cases h2 : r2 < 0
      · simp only [h2, if_true]
        exact ⟨none, w2, rfl, polling_mono (polling_trans p1 p2) (by omega) (by omega)⟩
      · simp only [h2, if_false, hc]
        exact ⟨r3, w3, rfl,
          polling_mono (polling_trans (polling_trans p1 p2)
            (polling_trans (polling_settle line w2) p3)) (by omega) (by omega)⟩

/-- `dht11_read` returns for every line: after the start signal it only polls the bound
pin (at most 9760 µs of busy-wait and 8282 samples), then at most logs the checksum error;
the caller's record changes only on `ESP_OK`. -/
theorem dht11_read_total (line : Line) (data : dht11_data) (w : World) :
    ∃ r d w' w1, dht11_read line data w = some (r, d, w') ∧
      Polling (startSignal w) w1 9760 8282 ∧
      (w' = w1 ∨ (r = esp_err_t.ESP_ERR_INVALID_CRC ∧ w' = ESP_LOGE "DHT11" "Checksum error" w1)) ∧
      (r = esp_err_t.ESP_OK ∨ d = data) := by
  obtain ⟨r1, w1, ha, p1⟩ := wait_for_level_polling line false 80 (by norm_num) (startSignal w)
  obtain ⟨r2, w2, hb, p2⟩ := wait_for_level_polling line true 80 (by norm_num) w1
  obtain ⟨r3, w3, hc, p3⟩ := read_bits_loop_total line 40 0 [0, 0, 0, 0, 0] w2
  simp only [Nat.cast_ofNat] at ha hb
  rw [dht11_read_unfold]
  simp only [ha]
  by_cases h1 : r1 < 0
  · simp only [h1, if_true]
    exact ⟨_, _, _, w1, rfl, polling_mono p1 (by omega) (by omega), Or.inl rfl, Or.inr rfl⟩
  · simp only [h1, if_false, hb]
    by_cases h2 : r2 < 0
    · simp only [h2, if_true]
      exact ⟨_, _, _, w2, rfl, polling_mono (polling_trans p1 p2) (by omega) (by omega),
        Or.inl rfl, Or.inr rfl⟩
    · simp only [h2, if_false, hc]
      have p : Polling (startSignal w) w3 9760 8282 :=
        polling_mono (polling_trans (polling_trans p1 p2) p3) (by omega) (by omega)
      cases r3 with
      | none => exact ⟨_, _, _, w3, rfl, p, Or.inl rfl, Or.inr rfl⟩
      | some bits =>
        simp only
        split
        · exact ⟨_, _, _, w3, rfl, p, Or.inr ⟨rfl, rfl⟩, Or.inr rfl⟩
        · exact ⟨_, _, _, w3, rfl, p, Or.inl rfl, Or.inl rfl⟩

theorem wait_loop_sameView (line : Line) (level : Bool) (T : Int) :
    ∀ (fuel : Nat) (time : Int) (w1 w2 : World), SameView w1 w2 →
      SameResult (wait_for_level_loop line level T fuel time w1)
        (wait_for_level_loop line level T fuel time w2) := by
  intro fuel
  induction fuel with
  | zero => intro time w1 w2 _; simp [wait_for_level_loop, SameResult]
  | succ f ih =>
    intro time w1 w2 h
    obtain ⟨hp, hc, hs⟩ := h
    simp only [wait_for_level_loop, gpio_get_level, hp, hc, hs]
    split_ifs
    · exact ⟨rfl, rfl, rfl, rfl⟩
    · exact ih _ _ _ ⟨rfl, rfl, rfl⟩
    · exact ⟨rfl, rfl, rfl, rfl⟩

theorem wait_for_level_sameView (line : Line) (level : Bool) (T : Int) (w1 w2 : World)
    (h : SameView w1 w2) :
    SameResult (wait_for_level line level T w1) (wait_for_level line level T w2) :=
  wait_loop_sameView line level T _ _ w1 w2 h

theorem read_bits_loop_sameView (line : Line) :
    ∀ (n i : Nat) (bits : List Nat) (w1 w2 : World), SameView w1 w2 →
      SameResult (read_bits_loop line n i bits w1) (read_bits_loop line n i bits w2) := by
  intro n
  induction n with
  | zero => intro i bits w1 w2 h; exact ⟨rfl, h⟩
  | succ n ih =>
    intro i bits w1 w2 h
    have ha := wait_for_level_sameView line false DHT11_TIMEOUT_US w1 w2 h
    rw [read_bits_loop, read_bits_loop]
    rcases hx : wait_for_level line false DHT11_TIMEOUT_US w1 with _ | ⟨r, u1⟩ <;>
      rcases hy : wait_for_level line false DHT11_TIMEOUT_US w2 with _ | ⟨r', u2⟩ <;>
      simp only [hx, hy, SameResult] at ha ⊢
    obtain ⟨rfl, hu⟩ := ha
    by_cases hr : r < 0
    · simp only [hr, if_true]; exact ⟨trivial, hu⟩
    · simp only [hr, if_false]
      have hb := wait_for_level_sameView line true DHT11_TIMEOUT_US u1 u2 hu
      rcases hx2 : wait_for_level line true DHT11_TIMEOUT_US u1 with _ | ⟨d, v1⟩ <;>
        rcases hy2 : wait_for_level line true DHT11_TIMEOUT_US u2 with _ | ⟨d', v2⟩ <;>
        simp only [hx2, hy2, SameResult] at hb ⊢
      obtain ⟨rfl, hv⟩ := hb
      by_cases hd : d < 0
      · simp only [hd, if_true]; exact ⟨trivial, hv⟩
      · simp only [hd, if_false]
        obtain ⟨hp, hc, hs⟩ := hv
        simp only [gpio_get_level, ets_delay_us, hp, hc, hs]
        exact ih _ _ _ _ ⟨rfl, rfl, rfl⟩

theorem startSignal_sameView (w1 w2 : World) (h : SameView w1 w2) :
    SameView (startSignal w1) (startSignal w2) := by
  obtain ⟨hp, hc, hs⟩ := h
  exact ⟨hp, by simp [startSignal_clock_us, hc], hs⟩

/-- The status and record returned by `dht11_read` depend on the world only through the
bound pin, the clock and the sample index. -/
theorem dht11_read_sameView (line : Line) (data : dht11_data) (w1 w2 : World)
    (h : SameView w1 w2) :
    outcome (dht11_read line data w1) = outcome (dht11_read line data w2) := by
  have ha := wait_for_level_sameView line false 80 _ _ (startSignal_sameView w1 w2 h)
  rw [dht11_read_unfold, dht11_read_unfold]
  rcases hx : wait_for_level line false 80 (startSignal w1) with _ | ⟨r, u1⟩ <;>
    rcases hy : wait_for_level line false 80 (startSignal w2) with _ | ⟨r', u2⟩ <;>
    simp only [hx, hy, SameResult] at ha ⊢
  obtain ⟨rfl, hu⟩ := ha
  by_cases hr : r < 0
  · simp only [hr, if_true, outcome, Option.map_some']
  · simp only [hr, if_false]
    have hb := wait_for_level_sameView line true 80 u1 u2 hu
    rcases hx2 : wait_for_level line true 80 u1 with _ | ⟨d, v1⟩ <;>
      rcases hy2 : wait_for_level line true 80 u2 with _ | ⟨d', v2⟩ <;>
      simp only [hx2, hy2, SameResult] at hb ⊢
    obtain ⟨rfl, hv⟩ := hb
    by_cases hd : d < 0
    · simp only [hd, if_true, outcome, Option.map_some']
    · simp only [hd, if_false]
      have hc := read_bits_loop_sameView line 40 0 [0, 0, 0, 0, 0] v1 v2 hv
      rcases hx3 : read_bits_loop line 40 0 [0, 0, 0, 0, 0] v1 with _ | ⟨b1, x1⟩ <;>
        rcases hy3 : read_bits_loop line 40 0 [0, 0, 0, 0, 0] v2 with _ | ⟨b2, x2⟩ <;>
        simp only [hx3, hy3, SameResult] at hc ⊢
      obtain ⟨rfl, _⟩ := hc
      cases b1 with
      | none => simp only [outcome, Option.map_some']
      | some bits =>
        simp only
        split <;> simp only [outcome, Option.map_some']

/-! ## Complete runs and their effects -/

/-- Along the polls of one wait the line either shows `level` for the first time at some
poll `g ≤ T`, or shows the other level at every poll up to `T`. -/
theorem level_search (line : Line) (pin : gpio_num_t) (c s : Nat) (level : Bool) (T : Nat) :
    (∃ g, g ≤ T ∧ (∀ i, i < g → line pin (c + i) (s + i) = !level) ∧
        line pin (c + g) (s + g) = level) ∨
      (∀ i, i ≤ T → line pin (c + i) (s + i) = !level) := by
  by_cases h : ∃ g, g ≤ T ∧ line pin (c + g) (s + g) = level
  · refine Or.inl ⟨Nat.find h, (Nat.find_spec h).1, ?_, (Nat.find_spec h).2⟩
    intro i hi
    have hmin := Nat.find_min h hi
    have hle : i ≤ T := le_trans (le_of_lt hi) (Nat.find_spec h).1
    have hne : ¬ line pin (c + i) (s + i) = level := fun e => hmin ⟨hle, e⟩
    cases level <;> simpa using hne
  · refine Or.inr ?_
    intro i hi
    have hne : ¬ line pin (c + i) (s + i) = level := fun e => h ⟨i, hi, e⟩
    cases level <;> simpa using hne

theorem observes_append {line : Line} {pin : gpio_num_t} {start : Nat} {l1 l2 : List (Nat × Bool)}
    (h1 : Observes line pin start l1) (h2 : Observes line pin (start + l1.length) l2) :
    Observes line pin start (l1 ++ l2) := by
  intro i hi
  by_cases hlt : i < l1.length
  · rw [List.getD_append _ _ _ _ hlt]
    exact h1 i hlt
  · have hi2 : i - l1.length < l2.length := by
      simp only [List.length_append] at hi; omega
    have := h2 (i - l1.length) hi2
    rw [List.getD_append_right _ _ _ _ (by omega)]
    rwa [Nat.add_assoc, Nat.add_sub_cancel' (by omega)] at this

theorem observes_singleton {line : Line} {pin : gpio_num_t} {start t : Nat} {v : Bool}
    (h : line pin t start = v) : Observes line pin start [(t, v)] := by
  intro i hi
  obtain rfl : i = 0 := by simpa using hi
  simpa using h

theorem observes_singleton_iff {line : Line} {pin : gpio_num_t} {start t : Nat} {v : Bool}
    (h : Observes line pin start [(t, v)]) : line pin t start = v := by
  simpa using h 0 (by simp)

theorem observes_timedWait {line : Line} {pin : gpio_num_t} {c s g : Nat} {level : Bool}
    (hpre : ∀ i, i < g → line pin (c + i) (s + i) = !level)
    (hlast : line pin (c + g) (s + g) = level) :
    Observes line pin s (timedWait level g c) := by
  intro i hi
  rw [timedWait_length] at hi
  by_cases hlt : i < g
  · rw [timedWait_getD_lt level g c i hlt]; exact hpre i hlt
  · obtain rfl : i = g := by omega
    rw [timedWait_getD_last]; exact hlast

theorem observes_timedWait_last {line : Line} {pin : gpio_num_t} {c s g : Nat} {level : Bool}
    (h : Observes line pin s (timedWait level g c)) : line pin (c + g) (s + g) = level := by
  have := h g (by rw [timedWait_length]; omega)
  rwa [timedWait_getD_last] at this

theorem observes_timedTimeout {line : Line} {pin : gpio_num_t} {c s n : Nat} {level : Bool}
    (h : ∀ i, i ≤ n → line pin (c + i) (s + i) = !level) :
    Observes line pin s (timedTimeout level n c) := by
  intro i hi
  rw [timedTimeout_length] at hi
  rw [timedTimeout_getD level n c i (by omega)]
  exact h i (by omega)

/-- Every complete run of the bit loop is a run over well-formed cells: the line showed
each cell's two edges within bound and the loop shifted in the post-settle samples. -/
theorem read_bits_loop_captured (line : Line) :
    ∀ (n i : Nat) (bits : List Nat) (w : World) (bits' : List Nat) (w' : World),
      read_bits_loop line n i bits w = some (some bits', w') →
      ∃ cells : List (Nat × Nat × Bool), cells.length = n ∧
        (∀ c ∈ cells, c.1 ≤ 100 ∧ c.2.1 ≤ 100) ∧
        Observes line w.dht_gpio w.samples (timedCells w.clock_us cells) ∧
        bits' = pushBits i bits (cellBits cells) ∧ w' = afterCells w cells := by
  intro n
  induction n with
  | zero =>
    intro i bits w bits' w' h
    rw [read_bits_loop_zero] at h
    simp only [Option.some.injEq, Prod.mk.injEq] at h
    obtain ⟨rfl, rfl⟩ := h
    exact ⟨[], rfl, by simp, by intro i hi; simp [timedCells] at hi, rfl, rfl⟩
  | succ n ih =>
    intro i bits w bits' w' h
    rcases level_search line w.dht_gpio w.clock_us w.samples false 100 with
      ⟨g1, hg1, hpre1, hlast1⟩ | hall1
    · have o1 : Observes line w.dht_gpio w.samples (timedWait false g1 w.clock_us) :=
        observes_timedWait hpre1 hlast1
      rcases level_search line w.dht_gpio (w.clock_us + g1) (w.samples + (g1 + 1)) true 100 with
        ⟨g2, hg2, hpre2, hlast2⟩ | hall2
      · have o2 : Observes line w.dht_gpio (w.samples + (g1 + 1))
            (timedWait true g2 (w.clock_us + g1)) := observes_timedWait hpre2 hlast2
        obtain ⟨bit, hbit⟩ : ∃ bit, line w.dht_gpio (w.clock_us + cellTime (g1, g2, false))
            (w.samples + (g1 + 1) + (g2 + 1)) = bit := ⟨_, rfl⟩
        have o3 : Observes line w.dht_gpio (w.samples + (g1 + 1) + (g2 + 1))
            [(w.clock_us + cellTime (g1, g2, bit), bit)] := observes_singleton hbit
        have ocell : Observes line w.dht_gpio w.samples (timedCell w.clock_us (g1, g2, bit)) := by
          unfold timedCell
          refine observes_append o1 (observes_append ?_ ?_)
          · rw [timedWait_length]; exact o2
          · rw [timedWait_length, timedWait_length]; exact o3
        rw [read_bits_loop_cell line n i bits w (g1, g2, bit) hg1 hg2 ocell] at h
        obtain ⟨cells, hlen, hb, hobs, hpush, hw⟩ := ih _ _ _ _ _ h
        refine ⟨(g1, g2, bit) :: cells, by simp [hlen], ?_, ?_, ?_, ?_⟩
        · intro c hc
          rcases List.mem_cons.mp hc with rfl | hc
          · exact ⟨hg1, hg2⟩
          · exact hb c hc
        · rw [timedCells]
          refine observes_append ocell ?_
          rw [afterCell_dht_gpio, afterCell_samples, afterCell_clock_us] at hobs
          exact hobs
        · rw [hpush]; rfl
        · rw [hw]; rfl
      · have := read_bits_loop_high_timeout line n i bits w g1 hg1
          (observes_append o1 (by rw [timedWait_length]; exact observes_timedTimeout hall2))
        rw [this] at h
        simp at h
    · have := read_bits_loop_low_timeout line n i bits w (observes_timedTimeout hall1)
      rw [this] at h
      simp at h

theorem msbValue_eight (m : List Bool) (hm : m.length = 8) :
    msbValue m = ((List.range 8).map (fun j => (m.getD j false).toNat * 2 ^ (7 - j))).sum := by
  rcases m with _ | ⟨a, m⟩
  · simp at hm
  rcases m with _ | ⟨b, m⟩
  · simp at hm
  rcases m with _ | ⟨c, m⟩
  · simp at hm
  rcases m with _ | ⟨d, m⟩
  · simp at hm
  rcases m with _ | ⟨e, m⟩
  · simp at hm
  rcases m with _ | ⟨f, m⟩
  · simp at hm
  rcases m with _ | ⟨g, m⟩
  · simp at hm
  rcases m with _ | ⟨h, m⟩
  · simp at hm
  rcases m with _ | ⟨x, m⟩
  · have hr : List.range 8 = [0, 1, 2, 3, 4, 5, 6, 7] := by decide
    rw [hr]
    simp only [msbValue, List.foldl_cons, List.foldl_nil, List.map_cons, List.map_nil,
      List.sum_cons, List.sum_nil, List.getD_cons_zero, List.getD_cons_succ]
    norm_num
    ring
  · simp at hm

theorem frameByte_eq_byteSum (l : List Bool) (k : Nat) (h : 8 * k + 8 ≤ l.length) :
    frameByte l k = byteSum (fun i => l.getD i false) k := by
  have hm : ((l.drop (8 * k)).take 8).length = 8 := by simp; omega
  rw [frameByte, msbValue_eight _ hm, byteSum]
  congr 1
  apply List.map_congr_left
  intro j hj
  have hj8 : j < 8 := List.mem_range.mp hj
  simp [List.getElem?_take, hj8, List.getElem?_drop]

/-- With a timeout of `INT_MAX` the counter can never exceed the timeout: on a line that
never shows `level` the loop does not return, whatever the fuel. -/
theorem wait_loop_int_max_none (line : Line) (level : Bool)
    (hline : ∀ p t i, line p t i = !level) :
    ∀ (fuel : Nat) (time : Int) (w : World),
      wait_for_level_loop line level 2147483647 fuel time w = none := by
  intro fuel
  induction fuel with
  | zero => intro time w; rfl
  | succ f ih =>
    intro time w
    have hne : ((!level) != level) = true := by cases level <;> rfl
    have hle : ¬ (wrapInt32 (time + 1) > 2147483647) := by
      unfold wrapInt32; omega
    rw [wait_for_level_loop]
    simp only [gpio_get_level, hline, hne, if_true, hle, if_false]
    exact ih _ _

/-- Complete description of a wait with a timeout below `INT_MAX`. -/
theorem wait_for_level_spec (line : Line) (level : Bool) (T : Nat) (hT : T < 2147483647)
    (w : World) :
    (∃ g, g ≤ T ∧
        (∀ i, i < g → line w.dht_gpio (w.clock_us + i) (w.samples + i) = !level) ∧
        line w.dht_gpio (w.clock_us + g) (w.samples + g) = level ∧
        wait_for_level line level (T : Int) w = some ((g : Int), polled w level g level)) ∨
      ((∀ i, i ≤ T → line w.dht_gpio (w.clock_us + i) (w.samples + i) = !level) ∧
        wait_for_level line level (T : Int) w = some (-1, polled w level T (!level))) := by
  rcases level_search line w.dht_gpio w.clock_us w.samples level T with
    ⟨g, hg, hpre, hlast⟩ | hall
  · exact Or.inl ⟨g, hg, hpre, hlast,
      wait_for_level_found line level (T : Int) (by omega) g w (by exact_mod_cast hg) hpre hlast⟩
  · refine Or.inr ⟨hall, ?_⟩
    have := wait_for_level_timeout line level (T : Int) (by omega) (by omega) w
      (by intro i hi; exact hall i (by simpa using hi))
    simpa using this

theorem risePairs_snd (c : Nat) (cells : List (Nat × Nat × Bool)) :
    (risePairs c cells).map Prod.snd = cellBits cells := by
  induction cells generalizing c with
  | nil => rfl
  | cons cell cs ih => simp [risePairs, cellBits, ih]

/-- On a clock-driven line, each cell of a run is sampled 40 µs after the clock value at
which its rising edge is first observed. -/
theorem risePairs_clockLine (f : Nat → Bool) (pin : gpio_num_t) :
    ∀ (cells : List (Nat × Nat × Bool)) (c s : Nat),
      Observes (clockLine f) pin s (timedCells c cells) →
      ∀ p ∈ risePairs c cells,
        f p.1 = true ∧ (∃ u, u + 1 = p.1 ∧ f u = false) ∧ p.2 = f (p.1 + 40) := by
  intro cells
  induction cells with
  | nil => intro c s _ p hp; simp [risePairs] at hp
  | cons cell cs ih =>
    intro c s h p hp
    rw [timedCells] at h
    have hcell := observes_left h
    have hrest := observes_right h
    rw [risePairs, List.mem_cons] at hp
    rcases hp with rfl | hp
    · unfold timedCell at hcell
      have hlow := observes_timedWait_last (observes_left hcell)
      have hhigh := observes_left (observes_right hcell)
      have hrise := observes_timedWait_last hhigh
      have hbit := observes_singleton_iff (observes_right (observes_right hcell))
      simp only [clockLine] at hlow hrise hbit
      refine ⟨hrise, ?_, ?_⟩
      · rcases Nat.eq_zero_or_pos cell.2.1 with h0 | hpos
        · rw [h0, Nat.add_zero] at hrise
          rw [hrise] at hlow
          exact absurd hlow (by simp)
        · have := hhigh (cell.2.1 - 1) (by rw [timedWait_length]; omega)
          rw [timedWait_getD_lt true cell.2.1 _ _ (by omega)] at this
          simp only [clockLine] at this
          exact ⟨c + cell.1 + (cell.2.1 - 1), by omega, by simpa using this⟩
      · rw [← hbit]
        simp [cellTime, Nat.add_assoc]
    · exact ih _ _ hrest p hp

theorem pollTrace_head (pin : gpio_num_t) (level last : Bool) (n : Nat) :
    ∃ v ev, pollTrace pin level n ++ [Event.get_level pin last] = Event.get_level pin v :: ev ∧
      ∀ e ∈ ev, (∃ k, e = Event.delay_us k) ∨ (∃ u, e = Event.get_level pin u) ∨
        ∃ t m, e = Event.log_error t m := by
  cases n with
  | zero => exact ⟨last, [], rfl, by simp⟩
  | succ n =>
    refine ⟨!level, Event.delay_us 1 :: (pollTrace pin level n ++ [Event.get_level pin last]),
      rfl, ?_⟩
    intro e he
    rcases List.mem_cons.mp he with rfl | he
    · exact Or.inl ⟨1, rfl⟩
    · rcases List.mem_append.mp he with he | he
      · rcases pollTrace_mem _ _ _ e he with rfl | hv
        · exact Or.inl ⟨1, rfl⟩
        · exact Or.inr (Or.inl hv)
      · exact Or.inr (Or.inl ⟨last, by simpa using he⟩)

theorem startSignal_out (w : World) :
    (startSignal w).out = Function.update w.out w.dht_gpio true := by
  simp [startSignal, gpio_set_level, vTaskDelay_ms, ets_delay_us]

theorem startSignal_dir (w : World) : (startSignal w).dir = w.dir := rfl

theorem readEffects_first (w : World) (n : Nat) (last : Bool) :
    ReadEffects w (polled (startSignal w) false n last) := by
  obtain ⟨v, ev, hev, hmem⟩ := pollTrace_head w.dht_gpio false last n
  refine ⟨rfl, rfl, startSignal_out w, v, ev, ?_, hmem⟩
  show (startSignal w).trace ++ (pollTrace w.dht_gpio false n ++ [Event.get_level w.dht_gpio last])
    = _
  rw [hev, startSignal_trace, List.append_assoc]

theorem readEffects_polling {w w1 w2 : World} {us smp : Nat} (h : ReadEffects w w1)
    (p : Polling w1 w2 us smp) : ReadEffects w w2 := by
  obtain ⟨hp, hd, ho, v, ev, htr, hmem⟩ := h
  obtain ⟨hp', hd', ho', ev', htr', hmem', _⟩ := p
  refine ⟨hp'.trans hp, hd'.trans hd, ho'.trans ho, v, ev ++ ev', ?_, ?_⟩
  · rw [htr', htr]; simp
  · intro e he
    rcases List.mem_append.mp he with he | he
    · exact hmem e he
    · rcases hmem' e he with hx | hx
      · exact Or.inl hx
      · rw [hp] at hx; exact Or.inr (Or.inl hx)

theorem readEffects_log {w w1 : World} (tag msg : String) (h : ReadEffects w w1) :
    ReadEffects w (ESP_LOGE tag msg w1) := by
  obtain ⟨hp, hd, ho, v, ev, htr, hmem⟩ := h
  refine ⟨hp, hd, ho, v, ev ++ [Event.log_error tag msg], ?_, ?_⟩
  · simp [ESP_LOGE, htr]
  · intro e he
    rcases List.mem_append.mp he with he | he
    · exact hmem e he
    · exact Or.inr (Or.inr ⟨tag, msg, by simpa using he⟩)

/-- Every `dht11_read` returns and has the effects of one capture attempt on the bound
pin. -/
theorem dht11_read_effects (line : Line) (data : dht11_data) (w : World) :
    ∃ r d w', dht11_read line data w = some (r, d, w') ∧ ReadEffects w w' := by
  obtain ⟨n, last, r1, _, ha, _⟩ :=
    wait_for_level_total line false 80 (by norm_num) (by norm_num) (startSignal w)
  have e1 := readEffects_first w n last
  obtain ⟨r2, w2, hb, p2⟩ := wait_for_level_polling line true 80 (by norm_num)
    (polled (startSignal w) false n last)
  obtain ⟨r3, w3, hc, p3⟩ := read_bits_loop_total line 40 0 [0, 0, 0, 0, 0] w2
  simp only [Nat.cast_ofNat] at hb
  rw [dht11_read_unfold]
  simp only [ha]
  by_cases h1 : r1 < 0
  · simp only [h1, if_true]
    exact ⟨_, _, _, rfl, e1⟩
  · simp only [h1, if_false, hb]
    by_cases h2 : r2 < 0
    · simp only [h2, if_true]
      exact ⟨_, _, _, rfl, readEffects_polling e1 p2⟩
    · simp only [h2, if_false, hc]
      have e3 := readEffects_polling (readEffects_polling e1 p2) p3
      cases r3 with
      | none => exact ⟨_, _, _, rfl, e3⟩
      | some bits =>
        simp only
        split
        · exact ⟨_, _, _, rfl, readEffects_log _ _ e3⟩
        · exact ⟨_, _, _, rfl, e3⟩

/-- A `dht11_read` that does not time out saw a handshake and 40 bit cells within bound,
and its bit loop returned the array built from the 40 post-settle samples. -/
theorem dht11_read_captured (line : Line) (data d : dht11_data) (w w' : World) (r : esp_err_t)
    (h : dht11_read line data w = some (r, d, w')) (hr : r ≠ esp_err_t.ESP_ERR_TIMEOUT) :
    ∃ h1 h2 cells, h1 ≤ 80 ∧ h2 ≤ 80 ∧ cells.length = 40 ∧
      (∀ c ∈ cells, c.1 ≤ 100 ∧ c.2.1 ≤ 100) ∧
      Observes line w.dht_gpio w.samples (timedFrame (w.clock_us + 20030) h1 h2 cells) ∧
      read_bits_loop line 40 0 [0, 0, 0, 0, 0]
          (polled (polled (startSignal w) false h1 false) true h2 true) =
        some (some (pushBits 0 [0, 0, 0, 0, 0] (cellBits cells)), afterFrame w h1 h2 cells) := by
  rw [dht11_read_unfold] at h
  rcases level_search line (startSignal w).dht_gpio (startSignal w).clock_us
    (startSignal w).samples false 80 with ⟨h1, hh1, hpre1, hlast1⟩ | hall1
  · have o1 : Observes line (startSignal w).dht_gpio (startSignal w).samples
        (timedWait false h1 (startSignal w).clock_us) := observes_timedWait hpre1 hlast1
    have ha := wait_for_level_observes line false 80 (by norm_num) h1 (startSignal w)
      (by exact_mod_cast hh1) o1
    have hn1 : ¬ ((h1 : Int) < 0) := by omega
    simp only [ha, hn1, if_false] at h
    rcases level_search line (startSignal w).dht_gpio ((startSignal w).clock_us + h1)
      ((startSignal w).samples + (h1 + 1)) true 80 with ⟨h2, hh2, hpre2, hlast2⟩ | hall2
    · have o2 : Observes line (startSignal w).dht_gpio ((startSignal w).samples + (h1 + 1))
          (timedWait true h2 ((startSignal w).clock_us + h1)) := observes_timedWait hpre2 hlast2
      have hb := wait_for_level_observes line true 80 (by norm_num) h2
        (polled (startSignal w) false h1 false) (by exact_mod_cast hh2) o2
      have hn2 : ¬ ((h2 : Int) < 0) := by omega
      simp only [hb, hn2, if_false] at h
      obtain ⟨r3, w3, hc, _⟩ := read_bits_loop_total line 40 0 [0, 0, 0, 0, 0]
        (polled (polled (startSignal w) false h1 false) true h2 true)
      rw [hc] at h
      cases r3 with
      | none =>
        simp only [Option.some.injEq, Prod.mk.injEq] at h
        exact absurd h.1.symm hr
      | some bits =>
        obtain ⟨cells, hlen, hgaps, hobs, hpush, hw3⟩ :=
          read_bits_loop_captured line 40 0 [0, 0, 0, 0, 0] _ bits w3 hc
        refine ⟨h1, h2, cells, hh1, hh2, hlen, hgaps, ?_, ?_⟩
        · rw [← startSignal_clock_us, timedFrame, timedHandshake]
          refine observes_append (observes_append o1 ?_) ?_
          · rw [timedWait_length]; exact o2
          · rw [List.length_append, timedWait_length, timedWait_length]
            simpa [polled, startSignal_samples, startSignal_dht_gpio, Nat.add_assoc] using hobs
        · rw [hc, hpush, hw3]; rfl
    · have hb := wait_80_stuck line true (polled (startSignal w) false h1 false)
        (observes_timedTimeout hall2)
      simp [hb] at h
      exact absurd h.1.symm hr
  · have ha := wait_80_stuck line false (startSignal w) (observes_timedTimeout hall1)
    simp [ha] at h
    exact absurd h.1.symm hr

theorem frameByte_cellBits (cells : List (Nat × Nat × Bool)) (hlen : cells.length = 40)
    (k : Nat) (hk : k < 5) : frameByte (cellBits cells) k = byteSum (sampled cells) k := by
  have := frameByte_eq_byteSum (cellBits cells) k (by simp [cellBits, hlen]; omega)
  exact this

/-! ## Claims -/

/-- C1: on every simulated line whose two handshake waits (gaps `h1`, `h2` of at most 80
polls) and 80 bit-edge waits (gaps of at most 100 polls) find their level within bound,
and whose 40 post-settle samples, grouped most-significant bit first into bytes b0..b4,
satisfy b4 = (b0 + b1 + b2 + b3) mod 256, `dht11_read` returns `ESP_OK` and the caller's
record holds humidity = b0 and temperature = b2 and nothing else.  The first sample is
taken 20030 µs after the call starts: the 20 ms pulse and the 30 µs release hold. -/
theorem dht11_read_valid_frame (line : Line) (data : dht11_data) (w : World) (h1 h2 : Nat)
    (cells : List (Nat × Nat × Bool)) (hh1 : h1 ≤ 80) (hh2 : h2 ≤ 80)
    (hlen : cells.length = 40) (hgaps : ∀ c ∈ cells, c.1 ≤ 100 ∧ c.2.1 ≤ 100)
    (hline : Observes line w.dht_gpio w.samples (timedFrame (w.clock_us + 20030) h1 h2 cells))
    (hsum : frameByte (cellBits cells) 4 =
      (frameByte (cellBits cells) 0 + frameByte (cellBits cells) 1 +
        frameByte (cellBits cells) 2 + frameByte (cellBits cells) 3) % 256) :
    ∃ w', dht11_read line data w =
      some (esp_err_t.ESP_OK,
        { temperature := (frameByte (cellBits cells) 2 : Nat),
          humidity := (frameByte (cellBits cells) 0 : Nat) }, w') := by
  refine ⟨afterFrame w h1 h2 cells, ?_⟩
  rw [dht11_read_frame line data w h1 h2 cells hh1 hh2 hlen hgaps hline, if_neg (not_not.mpr hsum)]

set_option maxRecDepth 100000 in
/-- C1 at the frame 0x2D 0x00 0x16 0x00 0x43: temperature 22, humidity 45. -/
theorem dht11_read_valid_frame_witness :
    ∃ w', dht11_read (streamLine (frameStream [0x2D, 0x00, 0x16, 0x00, 0x43])) ⟨0, 0⟩ World.boot =
      some (esp_err_t.ESP_OK, { temperature := 22, humidity := 45 }, w') :=
  dht11_read_valid_frame (streamLine (frameStream [0x2D, 0x00, 0x16, 0x00, 0x43])) ⟨0, 0⟩
    World.boot 2 3 (frameCells [0x2D, 0x00, 0x16, 0x00, 0x43]) (by decide) (by decide)
    (by decide) (by decide) (observes_streamLine _ _ _ (by decide)) (by decide)

/-- C2: on every simulated line whose waits are all within bound and whose captured bytes
have b4 ≠ (b0 + b1 + b2 + b3) mod 256, `dht11_read` returns `ESP_ERR_INVALID_CRC`, leaves
the caller's record as it was and does not return `ESP_OK`. -/
theorem dht11_read_bad_checksum (line : Line) (data : dht11_data) (w : World) (h1 h2 : Nat)
    (cells : List (Nat × Nat × Bool)) (hh1 : h1 ≤ 80) (hh2 : h2 ≤ 80)
    (hlen : cells.length = 40) (hgaps : ∀ c ∈ cells, c.1 ≤ 100 ∧ c.2.1 ≤ 100)
    (hline : Observes line w.dht_gpio w.samples (timedFrame (w.clock_us + 20030) h1 h2 cells))
    (hsum : frameByte (cellBits cells) 4 ≠
      (frameByte (cellBits cells) 0 + frameByte (cellBits cells) 1 +
        frameByte (cellBits cells) 2 + frameByte (cellBits cells) 3) % 256) :
    (∃ w', dht11_read line data w = some (esp_err_t.ESP_ERR_INVALID_CRC, data, w')) ∧
      ∀ d w', dht11_read line data w ≠ some (esp_err_t.ESP_OK, d, w') := by
  rw [dht11_read_frame line data w h1 h2 cells hh1 hh2 hlen hgaps hline, if_pos hsum]
  refine ⟨⟨_, rfl⟩, ?_⟩
  intro d w' h
  simp at h

set_option maxRecDepth 100000 in
/-- C2 at the frame 0x2D 0x00 0x16 0x00 0x00, whose checksum byte is corrupted. -/
theorem dht11_read_bad_checksum_witness :
    (∃ w', dht11_read (streamLine (frameStream [0x2D, 0x00, 0x16, 0x00, 0x00])) ⟨7, 9⟩ World.boot =
        some (esp_err_t.ESP_ERR_INVALID_CRC, ⟨7, 9⟩, w')) ∧
      ∀ d w', dht11_read (streamLine (frameStream [0x2D, 0x00, 0x16, 0x00, 0x00])) ⟨7, 9⟩
        World.boot ≠ some (esp_err_t.ESP_OK, d, w') :=
  dht11_read_bad_checksum (streamLine (frameStream [0x2D, 0x00, 0x16, 0x00, 0x00])) ⟨7, 9⟩
    World.boot 2 3 (frameCells [0x2D, 0x00, 0x16, 0x00, 0x00]) (by decide) (by decide)
    (by decide) (by decide) (observes_streamLine _ _ _ (by decide)) (by decide)

/-- C3: if every sample of the first handshake wait is high, or the line goes low
within bound and then stays low for the whole second wait, `dht11_read` returns
`ESP_ERR_TIMEOUT` with the caller's record untouched; the samples taken are exactly those
of the failed handshake, and after the start signal nothing is executed but 1 µs polling
delays and level samples (no 40 µs settle delay, no bit capture). -/
theorem dht11_read_handshake_timeout (line : Line) (data : dht11_data) (w : World) (h1 : Nat)
    (pre : List (Nat × Bool))
    (hpre : pre = timedTimeout false 80 (w.clock_us + 20030) ∨
      (h1 ≤ 80 ∧ pre = timedWait false h1 (w.clock_us + 20030) ++
        timedTimeout true 80 (w.clock_us + 20030 + h1)))
    (hline : Observes line w.dht_gpio w.samples pre) :
    ∃ w' ev, dht11_read line data w = some (esp_err_t.ESP_ERR_TIMEOUT, data, w') ∧
      w'.samples = w.samples + pre.length ∧
      w'.trace = w.trace ++ startTrace w.dht_gpio ++ ev ∧
      ∀ e ∈ ev, e = Event.delay_us 1 ∨ ∃ v, e = Event.get_level w.dht_gpio v := by
  rw [← startSignal_clock_us] at hpre
  rcases hpre with rfl | ⟨hh1, rfl⟩
  · have ha := wait_80_stuck line false (startSignal w) hline
    refine ⟨polled (startSignal w) false 80 true,
      pollTrace w.dht_gpio false 80 ++ [Event.get_level w.dht_gpio true], ?_, ?_, ?_, ?_⟩
    · rw [dht11_read_unfold]
      simp [ha]
    · simp [polled_samples, startSignal_samples, timedTimeout_length]
    · simp [polled, startSignal_trace, startSignal_dht_gpio]
    · intro e he
      rcases List.mem_append.mp he with he | he
      · exact pollTrace_mem _ _ _ e he
      · exact Or.inr ⟨true, by simpa using he⟩
  · have ha := wait_for_level_observes line false 80 (by norm_num) h1 (startSignal w)
      (by exact_mod_cast hh1) (observes_left hline)
    have hb := wait_80_stuck line true (polled (startSignal w) false h1 false)
      (by
        have := observes_right hline
        rwa [timedWait_length] at this)
    have hn : ¬ ((h1 : Int) < 0) := by omega
    refine ⟨polled (polled (startSignal w) false h1 false) true 80 false,
      (pollTrace w.dht_gpio false h1 ++ [Event.get_level w.dht_gpio false]) ++
        (pollTrace w.dht_gpio true 80 ++ [Event.get_level w.dht_gpio false]), ?_, ?_, ?_, ?_⟩
    · rw [dht11_read_unfold]
      simp only [ha, hn, if_false, hb]
      simp
    · simp [polled_samples, startSignal_samples, timedWait_length, timedTimeout_length]
      omega
    · simp [polled, startSignal_trace, startSignal_dht_gpio]
    · intro e he
      simp only [List.mem_append, List.mem_singleton] at he
      rcases he with (he | rfl) | (he | rfl)
      · exact pollTrace_mem _ _ _ e he
      · exact Or.inr ⟨_, rfl⟩
      · exact pollTrace_mem _ _ _ e he
      · exact Or.inr ⟨_, rfl⟩

set_option maxRecDepth 100000 in
/-- C3 on a line that goes low at its third sample and stays low: the first wait succeeds
after two high samples and the second wait times out after 81 low samples. -/
theorem dht11_read_handshake_timeout_witness :
    ∃ w' ev, dht11_read (streamLine lowStuckStream) ⟨7, 9⟩ World.boot =
          some (esp_err_t.ESP_ERR_TIMEOUT, ⟨7, 9⟩, w') ∧
      w'.samples = World.boot.samples + (timedWait false 2 (World.boot.clock_us + 20030) ++
        timedTimeout true 80 (World.boot.clock_us + 20030 + 2)).length ∧
      w'.trace = World.boot.trace ++ startTrace World.boot.dht_gpio ++ ev ∧
      ∀ e ∈ ev, e = Event.delay_us 1 ∨ ∃ v, e = Event.get_level World.boot.dht_gpio v :=
  dht11_read_handshake_timeout (streamLine lowStuckStream) ⟨7, 9⟩ World.boot 2 _
    (Or.inr ⟨by decide, rfl⟩) (observes_streamLine _ _ _ (by decide))

/-- C4: for every bit index (the number of cells already captured, below 40) and either
phase, if that bit's wait for low sees 101 high samples, or its wait for high sees 101 low
samples, while every earlier wait succeeded, `dht11_read` returns `ESP_ERR_TIMEOUT` and no
other status, whatever bits were captured before and whatever the line does afterwards. -/
theorem dht11_read_bit_timeout (line : Line) (data : dht11_data) (w : World) (h1 h2 g : Nat)
    (cells : List (Nat × Nat × Bool)) (tail : List (Nat × Bool)) (hh1 : h1 ≤ 80) (hh2 : h2 ≤ 80)
    (hlen : cells.length < 40) (hgaps : ∀ c ∈ cells, c.1 ≤ 100 ∧ c.2.1 ≤ 100)
    (htail : tail = timedTimeout false 100 (w.clock_us + 20030 + h1 + h2 + cellsTime cells) ∨
      (g ≤ 100 ∧ tail = timedWait false g (w.clock_us + 20030 + h1 + h2 + cellsTime cells) ++
        timedTimeout true 100 (w.clock_us + 20030 + h1 + h2 + cellsTime cells + g)))
    (hline : Observes line w.dht_gpio w.samples
      (timedFrame (w.clock_us + 20030) h1 h2 cells ++ tail)) :
    (∃ w', dht11_read line data w = some (esp_err_t.ESP_ERR_TIMEOUT, data, w')) ∧
      ∀ r d w', dht11_read line data w = some (r, d, w') → r = esp_err_t.ESP_ERR_TIMEOUT := by
  rw [← startSignal_clock_us] at hline htail
  rw [timedFrame, List.append_assoc] at hline
  have ha : wait_for_level line false 80 (startSignal w) =
      some ((h1 : Int), polled (startSignal w) false h1 false) :=
    wait_for_level_observes line false 80 (by norm_num) h1 _ (by exact_mod_cast hh1)
      (observes_left (observes_left hline))
  have hb : wait_for_level line true 80 (polled (startSignal w) false h1 false) =
      some ((h2 : Int), polled (polled (startSignal w) false h1 false) true h2 true) :=
    wait_for_level_observes line true 80 (by norm_num) h2 _ (by exact_mod_cast hh2)
      (by
        have := observes_right (observes_left hline)
        rwa [timedWait_length] at this)
  have hrest : Observes line
      (polled (polled (startSignal w) false h1 false) true h2 true).dht_gpio
      (polled (polled (startSignal w) false h1 false) true h2 true).samples
      (timedCells (polled (polled (startSignal w) false h1 false) true h2 true).clock_us cells
        ++ tail) := by
    have := observes_right hline
    simp only [timedHandshake, List.length_append, timedWait_length] at this
    simpa [polled, startSignal_samples, startSignal_dht_gpio, Nat.add_assoc] using this
  obtain ⟨m, hm⟩ : ∃ m, 40 = cells.length + (m + 1) := ⟨39 - cells.length, by omega⟩
  have hcells := read_bits_loop_cells line cells (m + 1) 0 [0, 0, 0, 0, 0]
    (polled (polled (startSignal w) false h1 false) true h2 true) hgaps (observes_left hrest)
  rw [← hm] at hcells
  have hclk : (afterCells (polled (polled (startSignal w) false h1 false) true h2 true)
      cells).clock_us = (startSignal w).clock_us + h1 + h2 + cellsTime cells := by
    rw [afterCells_clock_us]; rfl
  have htl : Observes line
      (afterCells (polled (polled (startSignal w) false h1 false) true h2 true) cells).dht_gpio
      (afterCells (polled (polled (startSignal w) false h1 false) true h2 true) cells).samples
      tail := by
    rw [afterCells_dht_gpio, afterCells_samples]
    exact observes_right hrest
  rw [← hclk] at htail
  have hn1 : ¬ ((h1 : Int) < 0) := by omega
  have hn2 : ¬ ((h2 : Int) < 0) := by omega
  have key : ∃ w', dht11_read line data w = some (esp_err_t.ESP_ERR_TIMEOUT, data, w') := by
    rcases htail with rfl | ⟨hg, rfl⟩
    · rw [dht11_read_unfold]
      simp only [ha, hn1, if_false, hb, hn2, hcells,
        read_bits_loop_low_timeout line m _ _ _ htl]
      exact ⟨_, rfl⟩
    · rw [dht11_read_unfold]
      simp only [ha, hn1, if_false, hb, hn2, hcells,
        read_bits_loop_high_timeout line m _ _ _ g hg htl]
      exact ⟨_, rfl⟩
  obtain ⟨w', hw'⟩ := key
  refine ⟨⟨w', hw'⟩, ?_⟩
  intro r d w'' h
  rw [hw'] at h
  simp only [Option.some.injEq, Prod.mk.injEq] at h
  exact h.1.symm

set_option maxRecDepth 100000 in
/-- C4 at bit index 3, wait-for-high phase: three cells are captured, the fourth goes low
after one sample and then never rises. -/
theorem dht11_read_bit_timeout_witness :
    (∃ w', dht11_read (streamLine bitStuckStream) ⟨7, 9⟩ World.boot =
        some (esp_err_t.ESP_ERR_TIMEOUT, ⟨7, 9⟩, w')) ∧
      ∀ r d w', dht11_read (streamLine bitStuckStream) ⟨7, 9⟩ World.boot = some (r, d, w') →
        r = esp_err_t.ESP_ERR_TIMEOUT :=
  dht11_read_bit_timeout (streamLine bitStuckStream) ⟨7, 9⟩ World.boot 2 3 1
    [(1, 1, true), (1, 1, false), (1, 1, true)] _ (by decide) (by decide) (by decide)
    (by decide) (Or.inr ⟨by decide, rfl⟩) (observes_streamLine _ _ _ (by decide))

/-- C5: whenever `dht11_read` returns a status other than `ESP_OK` (a timeout at any stage
or a checksum error), the caller's record after the call is the record before the call:
neither temperature nor humidity is written. -/
theorem dht11_read_failure_keeps_data (line : Line) (data d : dht11_data) (w w' : World)
    (r : esp_err_t) (h : dht11_read line data w = some (r, d, w'))
    (hr : r ≠ esp_err_t.ESP_OK) : d = data := by
  obtain ⟨r0, d0, w0, _, hrun, _, _, hd⟩ := dht11_read_total line data w
  rw [hrun] at h
  simp only [Option.some.injEq, Prod.mk.injEq] at h
  obtain ⟨rfl, rfl, _⟩ := h
  rcases hd with hd | hd
  · exact absurd hd hr
  · exact hd

/-- C5 on a frame with a corrupted checksum: four bytes were captured, none is surfaced. -/
theorem dht11_read_failure_keeps_data_witness :
    ∃ w', dht11_read (streamLine (frameStream [0x2D, 0x00, 0x16, 0x00, 0x01])) ⟨7, 9⟩ World.boot =
        some (esp_err_t.ESP_ERR_INVALID_CRC, ⟨7, 9⟩, w') ∧
      esp_err_t.ESP_ERR_INVALID_CRC ≠ esp_err_t.ESP_OK ∧ (⟨7, 9⟩ : dht11_data) = ⟨7, 9⟩ :=
  ⟨_, rfl, by decide,
    dht11_read_failure_keeps_data (streamLine (frameStream [0x2D, 0x00, 0x16, 0x00, 0x01]))
      ⟨7, 9⟩ ⟨7, 9⟩ World.boot _ esp_err_t.ESP_ERR_INVALID_CRC rfl (by decide)⟩

set_option maxRecDepth 100000 in
/-- C6 refuted: in the never-initialised state `dht11_read` performs a complete capture
(207 samples of pin 0) and returns `ESP_OK` with a reading. -/
theorem dht11_read_before_init_returns_ok :
    ∃ w', dht11_read (streamLine (frameStream [0x2D, 0x00, 0x16, 0x00, 0x43])) ⟨0, 0⟩ World.boot =
        some (esp_err_t.ESP_OK, { temperature := 22, humidity := 45 }, w') ∧
      w'.samples = 207 ∧ w'.dht_gpio = 0 :=
  ⟨_, rfl, rfl, rfl⟩

/-- C6 as amended: in the never-initialised state `dht_gpio` is 0 and `dht11_read` checks
no precondition: for every line it returns a status, after issuing the start signal on pin
0 and then only polling pin 0, and the status and record it returns are those returned
by a session initialised on pin 0. -/
theorem dht11_read_before_init (line : Line) (data : dht11_data) :
    World.boot.dht_gpio = 0 ∧
      (∃ r d w' ev, dht11_read line data World.boot = some (r, d, w') ∧
        w'.trace = startTrace 0 ++ ev ∧
        ∀ e ∈ ev, (∃ n, e = Event.delay_us n) ∨ (∃ v, e = Event.get_level 0 v) ∨
          ∃ t m, e = Event.log_error t m) ∧
      outcome (dht11_read line data World.boot) =
        outcome (dht11_read line data (dht11_init 0 World.boot).2) := by
  refine ⟨rfl, ?_, dht11_read_sameView line data _ _ ⟨rfl, rfl, rfl⟩⟩
  obtain ⟨r, d, w', w1, hrun, ⟨_, _, _, ev, htr, hev, _⟩, hw, _⟩ :=
    dht11_read_total line data World.boot
  have htr' : w1.trace = startTrace 0 ++ ev := by
    rw [htr, startSignal_trace]; rfl
  have hev' : ∀ e ∈ ev, (∃ n, e = Event.delay_us n) ∨ (∃ v, e = Event.get_level 0 v) ∨
      ∃ t m, e = Event.log_error t m := by
    intro e he
    rcases hev e he with h | h
    · exact Or.inl h
    · exact Or.inr (Or.inl h)
  rcases hw with rfl | ⟨_, rfl⟩
  · exact ⟨r, d, _, ev, hrun, htr', hev'⟩
  · refine ⟨r, d, _, ev ++ [Event.log_error "DHT11" "Checksum error"], hrun, ?_, ?_⟩
    · simp [ESP_LOGE, htr']
    · intro e he
      rcases List.mem_append.mp he with he | he
      · exact hev' e he
      · exact Or.inr (Or.inr ⟨_, _, by simpa using he⟩)

/-- C7: for every pin and prior state, a second `dht11_init` on the same pin returns
`ESP_OK` and leaves the bound pin, the pin configuration, the clock and the sample index as
the first call left them, and on every line a following `dht11_read` returns the same
status and the same record after two calls as after one. -/
theorem dht11_init_idempotent (p : gpio_num_t) (w : World) (line : Line) (data : dht11_data) :
    (dht11_init p (dht11_init p w).2).1 = esp_err_t.ESP_OK ∧
      (dht11_init p (dht11_init p w).2).2.dht_gpio = (dht11_init p w).2.dht_gpio ∧
      (dht11_init p (dht11_init p w).2).2.dir = (dht11_init p w).2.dir ∧
      (dht11_init p (dht11_init p w).2).2.out = (dht11_init p w).2.out ∧
      (dht11_init p (dht11_init p w).2).2.clock_us = (dht11_init p w).2.clock_us ∧
      (dht11_init p (dht11_init p w).2).2.samples = (dht11_init p w).2.samples ∧
      outcome (dht11_read line data (dht11_init p (dht11_init p w).2).2) =
        outcome (dht11_read line data (dht11_init p w).2) := by
  refine ⟨rfl, rfl, ?_, ?_, rfl, rfl, dht11_read_sameView line data _ _ ⟨rfl, rfl, rfl⟩⟩
  · simp [dht11_init, gpio_set_direction, gpio_set_level]
  · simp [dht11_init, gpio_set_direction, gpio_set_level]

/-- C8: for every pin `p` and every prior state, `dht11_init p` returns `ESP_OK`, binds the
session to `p` (after `dht11_init q` too, so the last call wins), and arms line `p` by
setting its direction to input/output open-drain and then its level high, in that order
and with no other effect. -/
theorem dht11_init_binds (p q : gpio_num_t) (w : World) :
    (dht11_init p w).1 = esp_err_t.ESP_OK ∧
      (dht11_init p w).2.dht_gpio = p ∧
      (dht11_init p (dht11_init q w).2).2.dht_gpio = (dht11_init p w).2.dht_gpio ∧
      (dht11_init p w).2.trace = w.trace ++
        [Event.set_direction p gpio_mode_t.GPIO_MODE_INPUT_OUTPUT_OD, Event.set_level p true] ∧
      (dht11_init p w).2.dir p = some gpio_mode_t.GPIO_MODE_INPUT_OUTPUT_OD ∧
      (dht11_init p w).2.out p = true ∧
      (dht11_init p w).2.clock_us = w.clock_us ∧ (dht11_init p w).2.samples = w.samples := by
  refine ⟨rfl, rfl, rfl, ?_, ?_, ?_, rfl, rfl⟩
  · simp [dht11_init, gpio_set_direction, gpio_set_level]
  · simp [dht11_init, gpio_set_direction, gpio_set_level]
  · simp [dht11_init, gpio_set_direction, gpio_set_level]

/-- C9: for every line `dht11_read` returns, and the effects of the call are one task
delay of 20 ms, at most 9790 µs of busy-wait delay and at most 8282 line samples; the
simulated clock advances by exactly these delays. -/
theorem dht11_read_bounded (line : Line) (data : dht11_data) (w : World) :
    ∃ r d w' ev, dht11_read line data w = some (r, d, w') ∧
      w'.trace = w.trace ++ ev ∧
      taskDelayMs ev = 20 ∧ busyWaitUs ev ≤ 9790 ∧ sampleCount ev ≤ 8282 ∧
      w'.clock_us = w.clock_us + 1000 * taskDelayMs ev + busyWaitUs ev ∧
      w'.samples = w.samples + sampleCount ev := by
  obtain ⟨r, d, w', w1, hrun, ⟨_, _, _, ev, htr, hev, hclk, hsmp, hb, hs⟩, hw, _⟩ :=
    dht11_read_total line data w
  have ht := taskDelayMs_polling _ ev hev
  have e1 : taskDelayMs (startTrace w.dht_gpio) = 20 := rfl
  have e2 : busyWaitUs (startTrace w.dht_gpio) = 30 := rfl
  have e3 : sampleCount (startTrace w.dht_gpio) = 0 := rfl
  rw [startSignal_clock_us] at hclk
  rw [startSignal_samples] at hsmp
  rw [startSignal_trace, List.append_assoc] at htr
  rcases hw with rfl | ⟨_, rfl⟩
  · refine ⟨r, d, _, startTrace w.dht_gpio ++ ev, hrun, htr, ?_, ?_, ?_, ?_, ?_⟩
    · rw [taskDelayMs_append, e1, ht]
    · rw [busyWaitUs_append, e2]; omega
    · rw [sampleCount_append, e3]; omega
    · rw [taskDelayMs_append, busyWaitUs_append, e1, e2, ht, hclk]; omega
    · rw [sampleCount_append, e3, hsmp]; omega
  · have l1 : taskDelayMs [Event.log_error "DHT11" "Checksum error"] = 0 := rfl
    have l2 : busyWaitUs [Event.log_error "DHT11" "Checksum error"] = 0 := rfl
    have l3 : sampleCount [Event.log_error "DHT11" "Checksum error"] = 0 := rfl
    refine ⟨r, d, _, startTrace w.dht_gpio ++ ev ++ [Event.log_error "DHT11" "Checksum error"],
      hrun, ?_, ?_, ?_, ?_, ?_, ?_⟩
    · simp [ESP_LOGE, htr]
    · rw [taskDelayMs_append, taskDelayMs_append, e1, ht, l1]
    · rw [busyWaitUs_append, busyWaitUs_append, e2, l2]; omega
    · rw [sampleCount_append, sampleCount_append, e3, l3]; omega
    · rw [taskDelayMs_append, taskDelayMs_append, busyWaitUs_append, busyWaitUs_append,
        e1, e2, ht, l1, l2]
      simp only [ESP_LOGE, hclk]; omega
    · rw [sampleCount_append, sampleCount_append, e3, l3]
      simp only [ESP_LOGE, hsmp]; omega

set_option maxRecDepth 100000 in
/-- C10, the code at the failing input: with sensors on pins 4 and 5, after
`dht11_init 4` a read returns sensor 4's frame, but after `dht11_init 4; dht11_init 5` the
bound pin is 5, a read returns sensor 5's frame and never samples pin 4. -/
theorem dht11_init_second_sensor_unbinds_first :
    (∃ w', dht11_read twoSensorLine ⟨0, 0⟩ (dht11_init 4 World.boot).2 =
        some (esp_err_t.ESP_OK, { temperature := 22, humidity := 45 }, w')) ∧
      (dht11_init 5 (dht11_init 4 World.boot).2).2.dht_gpio = 5 ∧
      ∃ w', dht11_read twoSensorLine ⟨0, 0⟩ (dht11_init 5 (dht11_init 4 World.boot).2).2 =
          some (esp_err_t.ESP_OK, { temperature := 25, humidity := 50 }, w') ∧
        ∀ e ∈ w'.trace, e ≠ Event.get_level 4 true ∧ e ≠ Event.get_level 4 false :=
  ⟨⟨_, rfl⟩, rfl, _, rfl, by decide⟩

/-- C11: whenever `dht11_read` captures all 40 bits (it returns a status other than
`ESP_ERR_TIMEOUT`), the line showed a handshake and 40 bit cells, and with s(i) the level
sampled for bit i the bit loop returned the array whose byte k is the sum over j = 0..7 of
s(8k+j)·2^(7−j), so each byte is made of its own eight samples only; byte 0 is reported
as humidity, byte 2 as temperature, and byte 4 is compared with (b0+b1+b2+b3) mod 256. -/
theorem dht11_read_msb_first (line : Line) (data d : dht11_data) (w w' : World) (r : esp_err_t)
    (h : dht11_read line data w = some (r, d, w')) (hr : r ≠ esp_err_t.ESP_ERR_TIMEOUT) :
    ∃ h1 h2 cells w'', cells.length = 40 ∧
      Observes line w.dht_gpio w.samples (timedFrame (w.clock_us + 20030) h1 h2 cells) ∧
      read_bits_loop line 40 0 [0, 0, 0, 0, 0]
          (polled (polled (startSignal w) false h1 false) true h2 true) =
        some (some [byteSum (sampled cells) 0, byteSum (sampled cells) 1,
          byteSum (sampled cells) 2, byteSum (sampled cells) 3, byteSum (sampled cells) 4], w'') ∧
      ((r = esp_err_t.ESP_OK ∧ d.humidity = (byteSum (sampled cells) 0 : Nat) ∧
          d.temperature = (byteSum (sampled cells) 2 : Nat) ∧
          byteSum (sampled cells) 4 =
            (byteSum (sampled cells) 0 + byteSum (sampled cells) 1 +
              byteSum (sampled cells) 2 + byteSum (sampled cells) 3) % 256) ∨
        (r = esp_err_t.ESP_ERR_INVALID_CRC ∧ d = data ∧
          byteSum (sampled cells) 4 ≠
            (byteSum (sampled cells) 0 + byteSum (sampled cells) 1 +
              byteSum (sampled cells) 2 + byteSum (sampled cells) 3) % 256)) := by
  obtain ⟨h1, h2, cells, hh1, hh2, hlen, hgaps, hobs, hloop⟩ :=
    dht11_read_captured line data d w w' r h hr
  have hf := dht11_read_frame line data w h1 h2 cells hh1 hh2 hlen hgaps hobs
  rw [pushBits_frame (cellBits cells) (by simpa [cellBits] using hlen)] at hloop
  simp only [frameByte_cellBits cells hlen _ (by norm_num : (0 : Nat) < 5),
    frameByte_cellBits cells hlen _ (by norm_num : (1 : Nat) < 5),
    frameByte_cellBits cells hlen _ (by norm_num : (2 : Nat) < 5),
    frameByte_cellBits cells hlen _ (by norm_num : (3 : Nat) < 5),
    frameByte_cellBits cells hlen _ (by norm_num : (4 : Nat) < 5)] at hf hloop
  refine ⟨h1, h2, cells, _, hlen, hobs, hloop, ?_⟩
  rw [hf] at h
  split at h
  · rename_i hne
    simp only [Option.some.injEq, Prod.mk.injEq] at h
    exact Or.inr ⟨h.1.symm, h.2.1.symm, hne⟩
  · rename_i heq
    simp only [Option.some.injEq, Prod.mk.injEq] at h
    obtain ⟨rfl, rfl, _⟩ := h
    exact Or.inl ⟨rfl, rfl, rfl, not_not.mp heq⟩

set_option maxRecDepth 100000 in
/-- C11 at the frame 0x2D 0x00 0x16 0x00 0x43. -/
theorem dht11_read_msb_first_witness :
    ∃ h1 h2 cells w'', cells.length = 40 ∧
      Observes (streamLine (frameStream [0x2D, 0x00, 0x16, 0x00, 0x43])) World.boot.dht_gpio
        World.boot.samples (timedFrame (World.boot.clock_us + 20030) h1 h2 cells) ∧
      read_bits_loop (streamLine (frameStream [0x2D, 0x00, 0x16, 0x00, 0x43])) 40 0
          [0, 0, 0, 0, 0] (polled (polled (startSignal World.boot) false h1 false) true h2 true) =
        some (some [byteSum (sampled cells) 0, byteSum (sampled cells) 1,
          byteSum (sampled cells) 2, byteSum (sampled cells) 3, byteSum (sampled cells) 4], w'') ∧
      ((esp_err_t.ESP_OK = esp_err_t.ESP_OK ∧
          (⟨22, 45⟩ : dht11_data).humidity = (byteSum (sampled cells) 0 : Nat) ∧
          (⟨22, 45⟩ : dht11_data).temperature = (byteSum (sampled cells) 2 : Nat) ∧
          byteSum (sampled cells) 4 =
            (byteSum (sampled cells) 0 + byteSum (sampled cells) 1 +
              byteSum (sampled cells) 2 + byteSum (sampled cells) 3) % 256) ∨
        (esp_err_t.ESP_OK = esp_err_t.ESP_ERR_INVALID_CRC ∧ (⟨22, 45⟩ : dht11_data) = ⟨0, 0⟩ ∧
          byteSum (sampled cells) 4 ≠
            (byteSum (sampled cells) 0 + byteSum (sampled cells) 1 +
              byteSum (sampled cells) 2 + byteSum (sampled cells) 3) % 256)) :=
  dht11_read_msb_first (streamLine (frameStream [0x2D, 0x00, 0x16, 0x00, 0x43])) ⟨0, 0⟩ ⟨22, 45⟩
    World.boot _ esp_err_t.ESP_OK rfl (by decide)

/-- C12 refuted at `timeout_us = INT_MAX`: on a line that stays high, the wait for low
never returns -1, because the `int` counter wraps before it can exceed the timeout; no
amount of fuel makes the loop return. -/
theorem wait_for_level_int_max_never_returns :
    wait_for_level (fun _ _ _ => true) false 2147483647 World.boot = none ∧
      ∀ fuel : Nat,
        wait_for_level_loop (fun _ _ _ => true) false 2147483647 fuel 0 World.boot = none :=
  ⟨wait_loop_int_max_none (fun _ _ _ => true) false (fun _ _ _ => rfl) _ 0 World.boot,
    fun fuel => wait_loop_int_max_none (fun _ _ _ => true) false (fun _ _ _ => rfl) fuel 0
      World.boot⟩

/-- C12 as amended: for every target level, every timeout `0 ≤ T < INT_MAX` and every
line, `wait_for_level` returns; it returns -1 exactly when none of the polls at elapsed
times 0..T µs shows the level, after exactly `T` one-microsecond delays; otherwise it
returns the number `n ≤ T` of one-microsecond delays issued before the level was first
observed. -/
theorem wait_for_level_bounded (line : Line) (level : Bool) (T : Nat) (hT : T < 2147483647)
    (w : World) :
    ∃ r w', wait_for_level line level (T : Int) w = some (r, w') ∧
      (r = -1 ↔ ∀ i, i ≤ T → line w.dht_gpio (w.clock_us + i) (w.samples + i) = !level) ∧
      (r = -1 → w'.clock_us = w.clock_us + T ∧
        w'.trace = w.trace ++
          (pollTrace w.dht_gpio level T ++ [Event.get_level w.dht_gpio (!level)])) ∧
      (r ≠ -1 → ∃ n : Nat, r = (n : Int) ∧ n ≤ T ∧
        (∀ i, i < n → line w.dht_gpio (w.clock_us + i) (w.samples + i) = !level) ∧
        line w.dht_gpio (w.clock_us + n) (w.samples + n) = level ∧
        w'.clock_us = w.clock_us + n ∧
        w'.trace = w.trace ++
          (pollTrace w.dht_gpio level n ++ [Event.get_level w.dht_gpio level])) := by
  rcases wait_for_level_spec line level T hT w with ⟨g, hg, hpre, hlast, hrun⟩ | ⟨hall, hrun⟩
  · refine ⟨(g : Int), _, hrun, ?_, ?_, ?_⟩
    · constructor
      · intro hneg; omega
      · intro hall
        have := hall g hg
        rw [hlast] at this
        cases level <;> simp at this
    · intro hneg; omega
    · intro _
      exact ⟨g, rfl, hg, hpre, hlast, rfl, rfl⟩
  · refine ⟨-1, _, hrun, ?_, ?_, ?_⟩
    · exact ⟨fun _ => hall, fun _ => rfl⟩
    · intro _; exact ⟨rfl, rfl⟩
    · intro hne; exact absurd rfl hne

/-- C12 on a line that never drops low: the 80 µs handshake wait returns -1 after exactly
80 one-microsecond delays. -/
theorem wait_for_level_bounded_witness :
    ∃ w', wait_for_level (fun _ _ _ => true) false 80 World.boot = some (-1, w') ∧
      w'.clock_us = World.boot.clock_us + 80 ∧
      w'.trace = World.boot.trace ++
        (pollTrace World.boot.dht_gpio false 80 ++ [Event.get_level World.boot.dht_gpio true]) := by
  obtain ⟨r, w', hrun, hiff, hto, _⟩ :=
    wait_for_level_bounded (fun _ _ _ => true) false 80 (by decide) World.boot
  have hr : r = -1 := hiff.mpr (fun _ _ => rfl)
  subst hr
  exact ⟨w', by simpa using hrun, (hto rfl).1, (hto rfl).2⟩

/-- C13: every `dht11_read` on a session bound to pin p returns, and the effects it adds
to the log are exactly set_level(p, 0), delay 20 ms, set_level(p, 1), delay 30 µs, then a
first sample of pin p, then events none of which writes to a pin or is a task delay: the
two writes of the start signal are the only writes of the call. -/
theorem dht11_read_start_signal_once (line : Line) (data : dht11_data) (w : World) :
    ∃ r d w' v ev, dht11_read line data w = some (r, d, w') ∧
      w'.trace = w.trace ++
        ([Event.set_level w.dht_gpio false, Event.task_delay_ms 20,
            Event.set_level w.dht_gpio true, Event.delay_us 30] ++
          Event.get_level w.dht_gpio v :: ev) ∧
      (∀ e ∈ ev, e.is_write = false ∧ e.task_ms = 0) ∧
      ([Event.set_level w.dht_gpio false, Event.task_delay_ms 20,
            Event.set_level w.dht_gpio true, Event.delay_us 30] ++
          Event.get_level w.dht_gpio v :: ev).filter Event.is_write =
        [Event.set_level w.dht_gpio false, Event.set_level w.dht_gpio true] := by
  obtain ⟨r, d, w', hrun, _, _, _, v, ev, htr, hmem⟩ := dht11_read_effects line data w
  have hev : ∀ e ∈ ev, e.is_write = false ∧ e.task_ms = 0 := by
    intro e he
    rcases hmem e he with ⟨n, rfl⟩ | ⟨u, rfl⟩ | ⟨t, m, rfl⟩ <;> exact ⟨rfl, rfl⟩
  refine ⟨r, d, w', v, ev, hrun, htr, hev, ?_⟩
  have hnil : ev.filter Event.is_write = [] := by
    rw [List.filter_eq_nil_iff]
    intro e he
    simp [(hev e he).1]
  simp [List.filter_cons, Event.is_write, hnil]

/-- C14: on a line whose level is a function `f` of the simulated microsecond clock,
every complete run of the bit loop is a run over cells in which each captured bit is the
level `f (t + 40)`, with `t` the clock value at which that bit's rising edge was first
observed (`f` low one microsecond earlier, high at `t`).  Hence a pulse that is low from
26–28 µs after the edge up to the sampling instant gives 0, and a pulse that stays high
for 70 µs gives 1. -/
theorem read_bits_loop_samples_after_rise (f : Nat → Bool) (n i : Nat) (bits bits' : List Nat)
    (w w' : World)
    (h : read_bits_loop (clockLine f) n i bits w = some (some bits', w')) :
    ∃ cells, cells.length = n ∧
      Observes (clockLine f) w.dht_gpio w.samples (timedCells w.clock_us cells) ∧
      bits' = pushBits i bits ((risePairs w.clock_us cells).map Prod.snd) ∧
      (risePairs w.clock_us cells).length = n ∧
      ∀ p ∈ risePairs w.clock_us cells,
        f p.1 = true ∧ (∃ u, u + 1 = p.1 ∧ f u = false) ∧ p.2 = f (p.1 + 40) ∧
        (∀ d, 26 ≤ d → d ≤ 28 → (∀ u, p.1 + d ≤ u → u ≤ p.1 + 40 → f u = false) →
          p.2 = false) ∧
        ((∀ u, p.1 ≤ u → u < p.1 + 70 → f u = true) → p.2 = true) := by
  obtain ⟨cells, hlen, _, hobs, hpush, _⟩ := read_bits_loop_captured (clockLine f) n i bits w bits' w' h
  refine ⟨cells, hlen, hobs, ?_, ?_, ?_⟩
  · rw [risePairs_snd]; exact hpush
  · have := congrArg List.length (risePairs_snd w.clock_us cells)
    simpa [cellBits, hlen] using this
  · intro p hp
    obtain ⟨hrise, hprev, hbit⟩ := risePairs_clockLine f w.dht_gpio cells _ _ hobs p hp
    refine ⟨hrise, hprev, hbit, ?_, ?_⟩
    · intro d _ hd hlow
      rw [hbit]
      exact hlow (p.1 + 40) (by omega) (le_refl _)
    · intro hhigh
      rw [hbit]
      exact hhigh (p.1 + 40) (by omega) (by omega)

set_option maxRecDepth 100000 in
/-- C14 on a line with a 27 µs pulse followed by a 70 µs pulse: the bits 0 and 1 are
captured. -/
theorem read_bits_loop_samples_after_rise_witness :
    ∃ cells, cells.length = 2 ∧
      Observes (clockLine twoPulses) World.boot.dht_gpio World.boot.samples
        (timedCells World.boot.clock_us cells) ∧
      [1, 0, 0, 0, 0] = pushBits 0 [0, 0, 0, 0, 0] ((risePairs World.boot.clock_us cells).map Prod.snd) ∧
      (risePairs World.boot.clock_us cells).length = 2 ∧
      ∀ p ∈ risePairs World.boot.clock_us cells,
        twoPulses p.1 = true ∧ (∃ u, u + 1 = p.1 ∧ twoPulses u = false) ∧
        p.2 = twoPulses (p.1 + 40) ∧
        (∀ d, 26 ≤ d → d ≤ 28 →
          (∀ u, p.1 + d ≤ u → u ≤ p.1 + 40 → twoPulses u = false) → p.2 = false) ∧
        ((∀ u, p.1 ≤ u → u < p.1 + 70 → twoPulses u = true) → p.2 = true) :=
  read_bits_loop_samples_after_rise twoPulses 2 0 [0, 0, 0, 0, 0] [1, 0, 0, 0, 0] World.boot
    (afterCells World.boot [(3, 50, false), (0, 37, true)]) rfl

set_option maxRecDepth 100000 in
/-- C15: there is a simulated line, with every handshake and bit-edge wait satisfied and
all 40 post-settle samples low, on which `dht11_read` returns `ESP_OK` with temperature 0
and humidity 0, whatever the caller's record held before. -/
theorem dht11_read_all_zero_frame (data : dht11_data) :
    ∃ line h1 h2 cells, h1 ≤ 80 ∧ h2 ≤ 80 ∧ cells.length = 40 ∧
      (∀ c ∈ cells, c.1 ≤ 100 ∧ c.2.1 ≤ 100) ∧ cellBits cells = List.replicate 40 false ∧
      Observes line World.boot.dht_gpio World.boot.samples
        (timedFrame (World.boot.clock_us + 20030) h1 h2 cells) ∧
      ∃ w', dht11_read line data World.boot =
        some (esp_err_t.ESP_OK, { temperature := 0, humidity := 0 }, w') := by
  have hobs : Observes (streamLine (frameStream [0, 0, 0, 0, 0])) World.boot.dht_gpio
      World.boot.samples (timedFrame (World.boot.clock_us + 20030) 2 3 (frameCells [0, 0, 0, 0, 0])) :=
    observes_streamLine _ _ _ (by decide)
  refine ⟨streamLine (frameStream [0, 0, 0, 0, 0]), 2, 3, frameCells [0, 0, 0, 0, 0],
    by decide, by decide, by decide, by decide, by decide, hobs,
    afterFrame World.boot 2 3 (frameCells [0, 0, 0, 0, 0]), ?_⟩
  rw [dht11_read_frame _ data World.boot 2 3 (frameCells [0, 0, 0, 0, 0]) (by decide) (by decide)
    (by decide) (by decide) hobs, if_neg (by decide)]
  rfl

/-- C16: for every bound pin, line and outcome, after `dht11_read` the bound pin is the
pin bound before, every GPIO read, write or configuration logged by the call targets that
pin, no direction has changed and the output level of every other pin is unchanged. -/
theorem dht11_read_preserves_session (line : Line) (data : dht11_data) (w : World) :
    ∃ r d w' ev, dht11_read line data w = some (r, d, w') ∧
      w'.dht_gpio = w.dht_gpio ∧ w'.trace = w.trace ++ ev ∧
      (∀ e ∈ ev, ∀ p, e.gpio_pin = some p → p = w.dht_gpio) ∧
      w'.dir = w.dir ∧ ∀ q, q ≠ w.dht_gpio → w'.out q = w.out q := by
  obtain ⟨r, d, w', hrun, hpin, hdir, hout, v, ev, htr, hmem⟩ := dht11_read_effects line data w
  refine ⟨r, d, w', _, hrun, hpin, htr, ?_, hdir, ?_⟩
  · intro e he p hp
    rcases List.mem_append.mp he with he | he
    · simp only [startTrace, List.mem_cons, List.mem_singleton, List.not_mem_nil, or_false] at he
      rcases he with rfl | rfl | rfl | rfl <;> simp [Event.gpio_pin] at hp
      · exact hp.symm
      · exact hp.symm
    · rcases List.mem_cons.mp he with rfl | he
      · simp [Event.gpio_pin] at hp; exact hp.symm
      · rcases hmem e he with ⟨n, rfl⟩ | ⟨u, rfl⟩ | ⟨t, m, rfl⟩
        · simp [Event.gpio_pin] at hp
        · simp only [Event.gpio_pin, Option.some.injEq] at hp; exact hp.symm
        · simp [Event.gpio_pin] at hp
  · intro q hq
    rw [hout, Function.update_noteq hq]

end DHT
